import Mathlib

/-!
Verification of the `is-deep-equal` deep-equality library.

The development shallowly embeds `src/core/deep-equal-core.ts` (the module the
public entry point `isDeepEqual` in `index.ts` imports) together with the
option-resolving entry point.  JavaScript values are modelled as primitives
plus references into an explicit heap, so that reference identity, shared
substructure and reference cycles are all expressible.  The mutable
`WeakMap` ledger (`seen`) is modelled by explicit state passing, and branches
of the source that throw a `TypeError` return `Except.error`.

Modelling notes on the untyped corners of the source:

* The recursion of `deepEqualCore` always increases `depth` by exactly one and
  the guard `depth > options.maxDepth` is the first statement of the function,
  so the recursion is embedded structurally on the fuel value
  `maxDepth + 1 - depth`; fuel `0` is exactly the guarded case.
* Numbers are modelled as NaN, negative zero, or integers; this covers every
  numeric distinction the library inspects (strict equality, `NaN`, the sign
  of zero).  General floating point is not needed by any comparison rule.
* Property reads on mismatched categories are modelled faithfully through the
  `read*` functions (for example `b.source` on a plain object reads an own
  field, and is `undefined` on other kinds); arrays own their `length`
  property, visible to `hasOwnProperty` and to string-key reads but not
  enumerable (absent from `Object.keys`).  A plain object whose own keys
  include `valueOf` shadows `Object.prototype.valueOf`, so the source's
  boxed-primitive branch fires on it and calls `a.valueOf()`; no modelled
  value is callable, hence that call throws and is embedded as `.error`
  (`Date`, whose prototype also shadows `valueOf`, is dispatched before that
  branch; the other modelled kinds carry no own fields).  One approximation
  remains, reachable by no theorem below: iterating a `Map` through the `Set`
  branch (the source allocates fresh `[key, value]` entry arrays there) is
  modelled as returning `false`, and iterating a `Set` through the `Map`
  branch as a thrown `TypeError`.
* The `ArrayBuffer` and typed-array branches of the source are omitted: no
  heap constructor models those values, and for every modelled value the
  corresponding guards (`a.constructor === ArrayBuffer`,
  `ArrayBuffer.isView(a)`) are `false`.
-/

namespace IsDeepEqual

/-- Numeric values as far as the library distinguishes them: NaN, `-0`,
and integers (`int 0` is `+0`). -/
inductive JsNum where
  | nan : JsNum
  | negZero : JsNum
  | int : Int → JsNum
deriving DecidableEq

/-- Primitive values. -/
inductive Prim where
  | undefV : Prim
  | nullV : Prim
  | boolV : Bool → Prim
  | num : JsNum → Prim
  | str : String → Prim
deriving DecidableEq

/-- A runtime value: a primitive, or a reference to a heap object. -/
inductive Value where
  | prim : Prim → Value
  | ref : Nat → Value
deriving DecidableEq

/-- Heap objects, one constructor per category the comparator dispatches on. -/
inductive HObject where
  | obj : List (String × Value) → HObject
  | arr : List Value → HObject
  | oSet : List Value → HObject
  | oMap : List (Value × Value) → HObject
  | oDate : Int → HObject
  | oRegex : String → String → HObject
  | oErr : String → String → HObject
deriving DecidableEq

/-- The heap: an association of addresses to objects. -/
abbrev Heap := List (Nat × HObject)

/-- The visitation ledger (`seen`): pairs of left address and right address. -/
abbrev Ledger := List (Nat × Nat)

/-- Result of a comparison call: an exception, or a boolean together with the
ledger as left by the call (the source mutates `seen` in place). -/
abbrev JsResult := Except Unit (Bool × Ledger)

deriving instance DecidableEq for Except

/-- Dereference the heap. -/
def heapGet : Heap → Nat → Option HObject
  | [], _ => none
  | (a, nd) :: rest, x => if a = x then some nd else heapGet rest x

/-- Ledger lookup (`seen.get` / `seen.has`). -/
def seenGet : Ledger → Nat → Option Nat
  | [], _ => none
  | (a, b) :: rest, x => if a = x then some b else seenGet rest x

/-- Strict equality on numbers (`===`): NaN equals nothing, `-0 === +0`. -/
def jsNumEq : JsNum → JsNum → Bool
  | .nan, _ => false
  | _, .nan => false
  | .negZero, .negZero => true
  | .negZero, .int i => i == 0
  | .int i, .negZero => i == 0
  | .int i, .int j => i == j

/-- Strict equality `a === b`: primitive value equality or reference identity. -/
def jsStrictEq : Value → Value → Bool
  | .prim .undefV, .prim .undefV => true
  | .prim .nullV, .prim .nullV => true
  | .prim (.boolV x), .prim (.boolV y) => x == y
  | .prim (.num x), .prim (.num y) => jsNumEq x y
  | .prim (.str x), .prim (.str y) => x == y
  | .ref x, .ref y => x == y
  | _, _ => false

/-- Whether a value is the NaN number (the only value with `a !== a`). -/
def jsIsNaN : Value → Bool
  | .prim (.num .nan) => true
  | _ => false

/-- Sign of a zero, as observed through `1 / x`: `true` for `+0`. -/
def jsZeroPos : Value → Bool
  | .prim (.num (.int 0)) => true
  | _ => false

/-- The value `+0`. -/
def zeroV : Value := .prim (.num (.int 0))

/-- The value `-0`. -/
def negZeroV : Value := .prim (.num .negZero)

/-- Fully resolved options record (`RequiredDeepEqualOptions`). -/
structure RequiredDeepEqualOptions where
  nanEqual : Bool
  checkPrototypes : Bool
  strictZero : Bool
  maxDepth : Nat
deriving DecidableEq

/-- Caller-facing options with omissible fields (`DeepEqualOptions`). -/
structure DeepEqualOptions where
  nanEqual : Option Bool := none
  checkPrototypes : Option Bool := none
  strictZero : Option Bool := none
  maxDepth : Option Nat := none

/-- Option resolution performed by the entry point `isDeepEqual`. -/
def resolveOptions (o : DeepEqualOptions) : RequiredDeepEqualOptions :=
  ⟨o.nanEqual.getD true, o.checkPrototypes.getD false,
   o.strictZero.getD false, o.maxDepth.getD 1000⟩

/-- The constructor of a heap object (`a.constructor`). -/
inductive JsCtor where
  | objectC | arrayC | setC | mapC | dateC | regexpC | errorC
deriving DecidableEq

/-- Constructor of each object kind. -/
def jsCtor : HObject → JsCtor
  | .obj _ => .objectC
  | .arr _ => .arrayC
  | .oSet _ => .setC
  | .oMap _ => .mapC
  | .oDate _ => .dateC
  | .oRegex _ _ => .regexpC
  | .oErr _ _ => .errorC

/-- Value of the identity fast path (source lines 18-20): `true` except that
with `strictZero` a shared numeric zero must have a matching sign bit. -/
def identityResult (opts : RequiredDeepEqualOptions) (a b : Value) : Bool :=
  !opts.strictZero || !jsStrictEq a zeroV || (jsZeroPos a == jsZeroPos b)

/-- Own-field lookup on a plain object; `undefined` when the key is absent. -/
def jsField : List (String × Value) → String → Value
  | [], _ => .prim .undefV
  | (k2, v) :: rest, k => if k2 = k then v else jsField rest k

/-- Enumerable own keys (`Object.keys`): the fields of a plain object, the
index strings of an array, nothing for the other kinds (the `message` of an
`Error` is an own but non-enumerable property). -/
def jsOwnKeys : HObject → List String
  | .obj fs => fs.map Prod.fst
  | .arr es => (List.range es.length).map (fun i => toString i)
  | _ => []

/-- Property read `b[k]` for a string key, own properties only (on an array
the own properties are its indices and `length`). -/
def jsFieldRead : HObject → String → Value
  | .obj fs, k => jsField fs k
  | .arr es, k =>
      if k == "length" then .prim (.num (.int es.length))
      else
        match es.enum.find? (fun p => toString p.1 == k) with
        | some p => p.2
        | none => .prim .undefV
  | _, _ => .prim .undefV

/-- Numeric index read `b[i]`. -/
def jsIndexRead : HObject → Nat → Value
  | .arr es, i => es.getD i (.prim .undefV)
  | .obj fs, i => jsField fs (toString i)
  | _, _ => .prim .undefV

/-- Read of `b.length`. -/
def readLength : HObject → Value
  | .arr es => .prim (.num (.int es.length))
  | .obj fs => jsField fs ("length")
  | _ => .prim .undefV

/-- Read of `b.size`. -/
def readSize : HObject → Value
  | .oSet es => .prim (.num (.int es.length))
  | .oMap es => .prim (.num (.int es.length))
  | .obj fs => jsField fs ("size")
  | _ => .prim .undefV

/-- Read of `b.source`. -/
def readSource : HObject → Value
  | .oRegex s _ => .prim (.str s)
  | .obj fs => jsField fs ("source")
  | _ => .prim .undefV

/-- Read of `b.flags`. -/
def readFlags : HObject → Value
  | .oRegex _ f => .prim (.str f)
  | .obj fs => jsField fs ("flags")
  | _ => .prim .undefV

/-- Read of `b.name` (`name` of an `Error` lives on the prototype). -/
def readName : HObject → Value
  | .oErr n _ => .prim (.str n)
  | .obj fs => jsField fs ("name")
  | _ => .prim .undefV

/-- Read of `b.message`. -/
def readMessage : HObject → Value
  | .oErr _ m => .prim (.str m)
  | .obj fs => jsField fs ("message")
  | _ => .prim .undefV

/-- The `hasOwnProperty` test used by the object comparator (an array owns
its indices and its non-enumerable `length`). -/
def jsHasOwn : HObject → String → Bool
  | .obj fs, k => (fs.map Prod.fst).contains k
  | .arr es, k =>
      k == "length" ||
      ((List.range es.length).map (fun i => toString i)).contains k
  | .oErr _ _, k => k == "message"
  | _, _ => false

/-- One recursive child comparison: the shape every loop below is
parametrized over. -/
abbrev ChildCmp := Value → Value → Ledger → JsResult

/-- The element loop of the array branch (source lines 49-53): compare the
index pairs in the given order, threading the ledger, stopping at the first
mismatch or exception. -/
def arrLoop (cmp : ChildCmp) : List (Value × Value) → Ledger → JsResult
  | [], seen => .ok (true, seen)
  | (x, y) :: ps, seen =>
      match cmp x y seen with
      | .error e => .error e
      | .ok (r, s1) => if r then arrLoop cmp ps s1 else .ok (false, s1)

/-- The index pairs the array branch compares: `(arrA[i], arrB[i])` for `i`
descending (the source iterates the indices in reverse). -/
def arrPairs (as : List Value) (nb : HObject) : List (Value × Value) :=
  (List.range as.length).reverse.map
    (fun i => (as.getD i (.prim .undefV), jsIndexRead nb i))

/-- The inner scan of the set comparator: find the first unclaimed index of
`b` whose element compares equal to `x`, each candidate pairing starting from
a fresh empty ledger (`new WeakMap()`), and discarding that ledger. -/
def setScan (cmp : ChildCmp) (x : Value) :
    List (Nat × Value) → List Nat → Except Unit (Option Nat)
  | [], _ => .ok none
  | (j, y) :: ys, claimed =>
      if j ∈ claimed then setScan cmp x ys claimed
      else
        match cmp x y [] with
        | .error e => .error e
        | .ok (r, _) => if r then .ok (some j) else setScan cmp x ys claimed

/-- The outer loop of the set comparator: first-fit matching with claiming
(`processedB`). -/
def setOuter (cmp : ChildCmp) :
    List Value → List (Nat × Value) → List Nat → Except Unit Bool
  | [], _, _ => .ok true
  | x :: xs, ys, claimed =>
      match setScan cmp x ys claimed with
      | .error e => .error e
      | .ok none => .ok false
      | .ok (some j) => setOuter cmp xs ys (j :: claimed)

/-- `compareSetOptimized`: for at most 10 elements, forward iteration over
both sets; for larger sets, conversion to arrays, a (redundant) length check,
and reverse iteration over both arrays.  Both branches first-fit match with
claiming; neither touches the caller ledger. -/
def compareSet (cmp : ChildCmp) (as bs : List Value) : Except Unit Bool :=
  if as.length ≤ 10 then
    setOuter cmp as bs.enum []
  else
    if as.length ≠ bs.length then .ok false
    else setOuter cmp as.reverse bs.enum.reverse []

/-- The inner scan of `compareMapOptimized`: look for an entry of `b` whose
key and value both compare equal (the value is only compared when the key
matched), reusing and threading the caller ledger.  There is no claiming. -/
def mapScan (cmp : ChildCmp) (k v : Value) :
    List (Value × Value) → Ledger → Except Unit (Bool × Ledger)
  | [], seen => .ok (false, seen)
  | (k2, v2) :: rest, seen =>
      match cmp k k2 seen with
      | .error e => .error e
      | .ok (rk, s1) =>
          if rk then
            match cmp v v2 s1 with
            | .error e => .error e
            | .ok (rv, s2) => if rv then .ok (true, s2) else mapScan cmp k v rest s2
          else mapScan cmp k v rest s1

/-- The outer loop of `compareMapOptimized`. -/
def mapOuter (cmp : ChildCmp) :
    List (Value × Value) → List (Value × Value) → Ledger → JsResult
  | [], _, seen => .ok (true, seen)
  | (k, v) :: rest, bes, seen =>
      match mapScan cmp k v bes seen with
      | .error e => .error e
      | .ok (found, s1) =>
          if found then mapOuter cmp rest bes s1 else .ok (false, s1)

/-- The value loop of `compareObjectOptimized`: compare `a[k]` with `b[k]`
for the given keys (the source iterates `keysA` in reverse), threading the
ledger. -/
def objLoop (cmp : ChildCmp) (fA : List (String × Value)) (nb : HObject) :
    List String → Ledger → JsResult
  | [], seen => .ok (true, seen)
  | k :: ks, seen =>
      match cmp (jsField fA k) (jsFieldRead nb k) seen with
      | .error e => .error e
      | .ok (r, s1) => if r then objLoop cmp fA nb ks s1 else .ok (false, s1)

/-- `compareObjectOptimized`: key-count check, `hasOwnProperty` check for
every key of `a`, then the value loop over the keys of `a` in reverse. -/
def compareObject (cmp : ChildCmp) (fA : List (String × Value)) (nb : HObject)
    (seen : Ledger) : JsResult :=
  if (fA.map Prod.fst).length ≠ (jsOwnKeys nb).length then .ok (false, seen)
  else if !((fA.map Prod.fst).all (fun k => jsHasOwn nb k)) then .ok (false, seen)
  else objLoop cmp fA nb (fA.map Prod.fst).reverse seen

/-- Category dispatch of `deepEqualCore` (source lines 41-137), entered after
the ledger has recorded the pair; `cmp` is the comparator at `depth + 1`.
The boxed-primitive test of line 109 (`a.valueOf !== Object.prototype.valueOf`,
checked after the `Array`/`RegExp`/`Date` branches) fires, among the modelled
values, exactly on a plain object with an own `valueOf` key — `Date` is
dispatched earlier and the other kinds carry no own fields — and then
`a.valueOf()` calls a non-callable value and throws, so the test sits in the
`.obj` arm and yields `.error`. -/
def dispatch (cmp : ChildCmp) (na nb : HObject) (seen : Ledger) : JsResult :=
  match na with
  | .arr as =>
      if jsStrictEq (.prim (.num (.int as.length))) (readLength nb) then
        arrLoop cmp (arrPairs as nb) seen
      else .ok (false, seen)
  | .oRegex src fl =>
      .ok (jsStrictEq (.prim (.str src)) (readSource nb) &&
           jsStrictEq (.prim (.str fl)) (readFlags nb), seen)
  | .oDate t =>
      match nb with
      | .oDate t2 => .ok (decide (t = t2), seen)
      | _ => .error ()
  | .oErr n m =>
      .ok (jsStrictEq (.prim (.str n)) (readName nb) &&
           jsStrictEq (.prim (.str m)) (readMessage nb), seen)
  | .oSet as =>
      if jsStrictEq (.prim (.num (.int as.length))) (readSize nb) then
        match nb with
        | .oSet bs => (compareSet cmp as bs).map (fun r => (r, seen))
        | .oMap _ => .ok (false, seen)
        | _ => .error ()
      else .ok (false, seen)
  | .oMap aes =>
      if jsStrictEq (.prim (.num (.int aes.length))) (readSize nb) then
        match nb with
        | .oMap bes => mapOuter cmp aes bes seen
        | _ => .error ()
      else .ok (false, seen)
  | .obj fA =>
      if "valueOf" ∈ fA.map Prod.fst then .error ()
      else compareObject cmp fA nb seen

/-- One unfolding of `deepEqualCore` (source lines 14-39 plus dispatch):
identity fast path, NaN fast path, primitive mismatch, constructor check,
cycle detection, ledger record, category dispatch. -/
def stepF (H : Heap) (opts : RequiredDeepEqualOptions) (cmp : ChildCmp)
    (a b : Value) (seen : Ledger) : JsResult :=
  if jsStrictEq a b then .ok (identityResult opts a b, seen)
  else if jsIsNaN a && jsIsNaN b then .ok (opts.nanEqual, seen)
  else
    match a, b with
    | .ref ra, .ref rb =>
        match heapGet H ra, heapGet H rb with
        | some na, some nb =>
            if (jsCtor na != jsCtor nb) && opts.checkPrototypes then
              .ok (false, seen)
            else
              match seenGet seen ra with
              | some x => .ok (decide (x = rb), seen)
              | none => dispatch cmp na nb ((ra, rb) :: seen)
        | _, _ => .ok (false, seen)
    | _, _ => .ok (false, seen)

/-- The comparator indexed by fuel, where fuel stands for
`maxDepth + 1 - depth`: fuel `0` is exactly `depth > maxDepth`, the first
rule of the source, and every recursive call of the source (always at
`depth + 1`) runs at fuel one less. -/
def deepEqualCoreF (H : Heap) (opts : RequiredDeepEqualOptions) :
    Nat → ChildCmp
  | 0 => fun _ _ seen => .ok (false, seen)
  | fuel + 1 => stepF H opts (deepEqualCoreF H opts fuel)

/-- `deepEqualCore(a, b, options, seen, depth)`. -/
def deepEqualCore (H : Heap) (a b : Value) (opts : RequiredDeepEqualOptions)
    (seen : Ledger) (depth : Nat) : JsResult :=
  deepEqualCoreF H opts (opts.maxDepth + 1 - depth) a b seen

/-- The public entry point `isDeepEqual`: resolve option defaults, then one
top-level call with a fresh ledger at depth 0. -/
def isDeepEqual (H : Heap) (a b : Value) (options : DeepEqualOptions) : JsResult :=
  deepEqualCore H a b (resolveOptions options) [] 0

/-- All-defaults resolved options. -/
def defaultOpts : RequiredDeepEqualOptions := ⟨true, false, false, 1000⟩

end IsDeepEqual

namespace IsDeepEqual

/-! ## Generic helpers -/

/-- Boolean outcome of a call, discarding the final ledger. -/
def resultOf (r : JsResult) : Except Unit Bool := r.map Prod.fst

theorem heapGet_mem : ∀ (H : Heap) (a : Nat) (nd : HObject),
    heapGet H a = some nd → (a, nd) ∈ H := by
  intro H
  induction H with
  | nil => intro a nd h; simp [heapGet] at h
  | cons p rest ih =>
      intro a nd h
      obtain ⟨x, y⟩ := p
      unfold heapGet at h
      by_cases hx : x = a
      · rw [if_pos hx] at h
        obtain rfl := Option.some_inj.mp h
        exact hx ▸ List.mem_cons_self _ _
      · rw [if_neg hx] at h
        exact List.mem_cons_of_mem _ (ih a nd h)

/-- A node that cannot reach the boxed-primitive branch: among the modelled
kinds only a plain object can own a `valueOf` key. -/
def noBoxedNode : HObject → Bool
  | .obj fs => decide ("valueOf" ∉ fs.map Prod.fst)
  | _ => true

/-- Heap in which no node shadows `valueOf` (so the boxed-primitive branch,
source line 109, never fires). -/
def NoBoxed (H : Heap) : Prop := ∀ p ∈ H, noBoxedNode p.2 = true

theorem deepEqualCoreF_zero (H : Heap) (opts : RequiredDeepEqualOptions)
    (a b : Value) (seen : Ledger) :
    deepEqualCoreF H opts 0 a b seen = .ok (false, seen) := rfl

theorem deepEqualCoreF_succ (H : Heap) (opts : RequiredDeepEqualOptions)
    (fuel : Nat) :
    deepEqualCoreF H opts (fuel + 1) = stepF H opts (deepEqualCoreF H opts fuel) := rfl

theorem deepEqualCore_fuel (H : Heap) (a b : Value)
    (opts : RequiredDeepEqualOptions) (seen : Ledger) (depth : Nat)
    (h : depth ≤ opts.maxDepth) :
    deepEqualCore H a b opts seen depth =
      stepF H opts (deepEqualCoreF H opts (opts.maxDepth - depth)) a b seen := by
  unfold deepEqualCore
  have h2 : opts.maxDepth + 1 - depth = (opts.maxDepth - depth) + 1 := by omega
  rw [h2, deepEqualCoreF_succ]

theorem deepEqualCore_child (H : Heap) (x y : Value)
    (opts : RequiredDeepEqualOptions) (s : Ledger) (depth : Nat)
    (h : depth ≤ opts.maxDepth) :
    deepEqualCore H x y opts s (depth + 1) =
      deepEqualCoreF H opts (opts.maxDepth - depth) x y s := by
  unfold deepEqualCore
  have h2 : opts.maxDepth + 1 - (depth + 1) = opts.maxDepth - depth := by omega
  rw [h2]

/-! ## C1: the depth guard is the first rule -/

/-- C1: whenever the current depth exceeds `options.maxDepth` the comparator
returns `false` immediately, before any other rule; the statement quantifies
over all value pairs, so in particular it covers two reference-identical or
strictly equal values. -/
theorem c1_depth_guard_first (H : Heap) (a b : Value)
    (opts : RequiredDeepEqualOptions) (seen : Ledger) (depth : Nat)
    (h : depth > opts.maxDepth) :
    deepEqualCore H a b opts seen depth = .ok (false, seen) := by
  unfold deepEqualCore
  have h2 : opts.maxDepth + 1 - depth = 0 := by omega
  rw [h2, deepEqualCoreF_zero]

theorem c1_depth_guard_first_witness :
    1001 > defaultOpts.maxDepth ∧
    jsStrictEq (.prim (.num (.int 5))) (.prim (.num (.int 5))) = true ∧
    deepEqualCore [] (.prim (.num (.int 5))) (.prim (.num (.int 5)))
      defaultOpts [] 1001 = .ok (false, []) :=
  ⟨by decide, by decide,
   c1_depth_guard_first [] (.prim (.num (.int 5))) (.prim (.num (.int 5)))
     defaultOpts [] 1001 (by decide)⟩

/-! ## C7: identity fast path and strictZero -/

/-- C7: on the identity fast path (same primitive value or same reference)
the comparator returns `true`, except that with `strictZero` enabled a shared
numeric zero additionally requires matching sign bits: `+0` vs `+0` is
`true`, `+0` vs `-0` is `false`; with `strictZero` disabled (the default)
`+0` and `-0` compare equal. -/
theorem c7_identity_fast_path :
    (∀ (H : Heap) (a b : Value) (opts : RequiredDeepEqualOptions)
        (seen : Ledger) (depth : Nat), depth ≤ opts.maxDepth →
        jsStrictEq a b = true →
        (opts.strictZero = false ∨ jsStrictEq a zeroV = false) →
        deepEqualCore H a b opts seen depth = .ok (true, seen)) ∧
    (∀ (H : Heap) (a b : Value) (opts : RequiredDeepEqualOptions)
        (seen : Ledger) (depth : Nat), depth ≤ opts.maxDepth →
        jsStrictEq a b = true → opts.strictZero = true →
        jsStrictEq a zeroV = true →
        deepEqualCore H a b opts seen depth =
          .ok (jsZeroPos a == jsZeroPos b, seen)) ∧
    deepEqualCore [] zeroV zeroV ⟨true, false, true, 1000⟩ [] 0 = .ok (true, []) ∧
    deepEqualCore [] zeroV negZeroV ⟨true, false, true, 1000⟩ [] 0 = .ok (false, []) ∧
    deepEqualCore [] negZeroV zeroV ⟨true, false, true, 1000⟩ [] 0 = .ok (false, []) ∧
    deepEqualCore [] zeroV negZeroV defaultOpts [] 0 = .ok (true, []) := by
  refine ⟨?_, ?_, by decide, by decide, by decide, by decide⟩
  · intro H a b opts seen depth hd he hz
    rw [deepEqualCore_fuel H a b opts seen depth hd]
    unfold stepF
    rw [he]
    simp only [if_true]
    unfold identityResult
    rcases hz with hz | hz <;> simp [hz]
  · intro H a b opts seen depth hd he hsz hz
    rw [deepEqualCore_fuel H a b opts seen depth hd]
    unfold stepF
    rw [he]
    simp only [if_true]
    unfold identityResult
    simp [hsz, hz]

theorem c7_identity_fast_path_witness :
    (0 ≤ defaultOpts.maxDepth ∧
      jsStrictEq (.prim (.str "a")) (.prim (.str "a")) = true ∧
      deepEqualCore [] (.prim (.str "a")) (.prim (.str "a")) defaultOpts [] 0 =
        .ok (true, [])) ∧
    (0 ≤ (1000 : Nat) ∧ jsStrictEq zeroV negZeroV = true ∧
      deepEqualCore [] zeroV negZeroV ⟨true, false, true, 1000⟩ [] 0 =
        .ok (jsZeroPos zeroV == jsZeroPos negZeroV, [])) :=
  ⟨⟨by decide, by decide,
    c7_identity_fast_path.1 [] (.prim (.str "a")) (.prim (.str "a"))
      defaultOpts [] 0 (by decide) (by decide) (Or.inl rfl)⟩,
   ⟨by decide, by decide,
    c7_identity_fast_path.2.1 [] zeroV negZeroV ⟨true, false, true, 1000⟩ [] 0
      (by decide) (by decide) rfl (by decide)⟩⟩

end IsDeepEqual

namespace IsDeepEqual

/-! ## C6: cycle detection through the ledger -/

end IsDeepEqual

namespace IsDeepEqual

/-! ## C8: totality and the throwing corner -/

/-- Heap holding a `Date` at address 0 and an empty plain object at 1. -/
def dateObjHeap : Heap := [(0, .oDate 0), (1, .obj [])]

theorem arrLoop_total (cmp : ChildCmp)
    (hc : ∀ x y s, ∃ r s2, cmp x y s = .ok (r, s2)) :
    ∀ (ps : List (Value × Value)) (s : Ledger),
      ∃ r s2, arrLoop cmp ps s = .ok (r, s2) := by
  intro ps
  induction ps with
  | nil => exact fun s => ⟨true, s, rfl⟩
  | cons p rest ih =>
      intro s
      obtain ⟨x, y⟩ := p
      obtain ⟨r, s2, hr⟩ := hc x y s
      cases r with
      | true =>
          obtain ⟨r2, s3, h2⟩ := ih s2
          exact ⟨r2, s3, by simp [arrLoop, hr, h2]⟩
      | false => exact ⟨false, s2, by simp [arrLoop, hr]⟩

theorem setScan_total (cmp : ChildCmp)
    (hc : ∀ x y s, ∃ r s2, cmp x y s = .ok (r, s2)) (x : Value) :
    ∀ (ys : List (Nat × Value)) (claimed : List Nat),
      ∃ o, setScan cmp x ys claimed = .ok o := by
  intro ys
  induction ys with
  | nil => exact fun claimed => ⟨none, rfl⟩
  | cons p rest ih =>
      intro claimed
      obtain ⟨j, y⟩ := p
      by_cases hj : j ∈ claimed
      · obtain ⟨o, ho⟩ := ih claimed
        exact ⟨o, by simp [setScan, hj, ho]⟩
      · obtain ⟨r, s2, hr⟩ := hc x y []
        cases r with
        | true => exact ⟨some j, by simp [setScan, hj, hr]⟩
        | false =>
            obtain ⟨o, ho⟩ := ih claimed
            exact ⟨o, by simp [setScan, hj, hr, ho]⟩

theorem setOuter_total (cmp : ChildCmp)
    (hc : ∀ x y s, ∃ r s2, cmp x y s = .ok (r, s2)) :
    ∀ (xs : List Value) (ys : List (Nat × Value)) (claimed : List Nat),
      ∃ r, setOuter cmp xs ys claimed = .ok r := by
  intro xs
  induction xs with
  | nil => exact fun ys claimed => ⟨true, rfl⟩
  | cons x rest ih =>
      intro ys claimed
      obtain ⟨o, ho⟩ := setScan_total cmp hc x ys claimed
      cases o with
      | none => exact ⟨false, by simp [setOuter, ho]⟩
      | some j =>
          obtain ⟨r, hr⟩ := ih ys (j :: claimed)
          exact ⟨r, by simp [setOuter, ho, hr]⟩

theorem compareSet_total (cmp : ChildCmp)
    (hc : ∀ x y s, ∃ r s2, cmp x y s = .ok (r, s2)) (as bs : List Value) :
    ∃ r, compareSet cmp as bs = .ok r := by
  unfold compareSet
  by_cases h1 : as.length ≤ 10
  · rw [if_pos h1]
    exact setOuter_total cmp hc as bs.enum []
  · rw [if_neg h1]
    by_cases h2 : as.length = bs.length
    · rw [if_neg (by simpa using h2)]
      exact setOuter_total cmp hc as.reverse bs.enum.reverse []
    · rw [if_pos h2]
      exact ⟨false, rfl⟩

theorem mapScan_total (cmp : ChildCmp)
    (hc : ∀ x y s, ∃ r s2, cmp x y s = .ok (r, s2)) (k v : Value) :
    ∀ (bes : List (Value × Value)) (s : Ledger),
      ∃ r s2, mapScan cmp k v bes s = .ok (r, s2) := by
  intro bes
  induction bes with
  | nil => exact fun s => ⟨false, s, rfl⟩
  | cons p rest ih =>
      intro s
      obtain ⟨k2, v2⟩ := p
      obtain ⟨rk, s1, hk⟩ := hc k k2 s
      cases rk with
      | true =>
          obtain ⟨rv, s2, hv⟩ := hc v v2 s1
          cases rv with
          | true => exact ⟨true, s2, by simp [mapScan, hk, hv]⟩
          | false =>
              obtain ⟨r, s3, h3⟩ := ih s2
              exact ⟨r, s3, by simp [mapScan, hk, hv, h3]⟩
      | false =>
          obtain ⟨r, s3, h3⟩ := ih s1
          exact ⟨r, s3, by simp [mapScan, hk, h3]⟩

theorem mapOuter_total (cmp : ChildCmp)
    (hc : ∀ x y s, ∃ r s2, cmp x y s = .ok (r, s2)) :
    ∀ (aes bes : List (Value × Value)) (s : Ledger),
      ∃ r s2, mapOuter cmp aes bes s = .ok (r, s2) := by
  intro aes
  induction aes with
  | nil => exact fun bes s => ⟨true, s, rfl⟩
  | cons p rest ih =>
      intro bes s
      obtain ⟨k, v⟩ := p
      obtain ⟨found, s1, hf⟩ := mapScan_total cmp hc k v bes s
      cases found with
      | true =>
          obtain ⟨r, s2, h2⟩ := ih bes s1
          exact ⟨r, s2, by simp [mapOuter, hf, h2]⟩
      | false => exact ⟨false, s1, by simp [mapOuter, hf]⟩

theorem objLoop_total (cmp : ChildCmp)
    (hc : ∀ x y s, ∃ r s2, cmp x y s = .ok (r, s2))
    (fA : List (String × Value)) (nb : HObject) :
    ∀ (ks : List String) (s : Ledger),
      ∃ r s2, objLoop cmp fA nb ks s = .ok (r, s2) := by
  intro ks
  induction ks with
  | nil => exact fun s => ⟨true, s, rfl⟩
  | cons k rest ih =>
      intro s
      obtain ⟨r, s1, hr⟩ := hc (jsField fA k) (jsFieldRead nb k) s
      cases r with
      | true =>
          obtain ⟨r2, s2, h2⟩ := ih s1
          exact ⟨r2, s2, by simp [objLoop, hr, h2]⟩
      | false => exact ⟨false, s1, by simp [objLoop, hr]⟩

theorem compareObject_total (cmp : ChildCmp)
    (hc : ∀ x y s, ∃ r s2, cmp x y s = .ok (r, s2))
    (fA : List (String × Value)) (nb : HObject) (s : Ledger) :
    ∃ r s2, compareObject cmp fA nb s = .ok (r, s2) := by
  unfold compareObject
  by_cases h1 : (fA.map Prod.fst).length ≠ (jsOwnKeys nb).length
  · rw [if_pos h1]
    exact ⟨false, s, rfl⟩
  · rw [if_neg h1]
    by_cases h2 : (fA.map Prod.fst).all (fun k => jsHasOwn nb k)
    · rw [if_neg (by simp [h2])]
      exact objLoop_total cmp hc fA nb (fA.map Prod.fst).reverse s
    · rw [if_pos (by simp [h2])]
      exact ⟨false, s, rfl⟩

theorem dispatch_total (cmp : ChildCmp)
    (hc : ∀ x y s, ∃ r s2, cmp x y s = .ok (r, s2))
    (na nb : HObject) (hctor : jsCtor na = jsCtor nb)
    (hbx : noBoxedNode na = true) (s : Ledger) :
    ∃ r s2, dispatch cmp na nb s = .ok (r, s2) := by
  cases na with
  | obj fA =>
      have hnv : "valueOf" ∉ fA.map Prod.fst := by
        simpa [noBoxedNode] using hbx
      obtain ⟨r, s2, h⟩ := compareObject_total cmp hc fA nb s
      exact ⟨r, s2, by simp [dispatch, hnv, h]⟩
  | arr as =>
      by_cases h1 : jsStrictEq (.prim (.num (.int as.length))) (readLength nb)
      · simpa [dispatch, h1] using arrLoop_total cmp hc (arrPairs as nb) s
      · exact ⟨false, s, by simp [dispatch, h1]⟩
  | oSet as =>
      cases nb with
      | oSet bs =>
          by_cases h1 : jsStrictEq (.prim (.num (.int as.length)))
            (readSize (.oSet bs))
          · obtain ⟨r, hr⟩ := compareSet_total cmp hc as bs
            exact ⟨r, s, by simp [dispatch, h1, hr, Except.map]⟩
          · exact ⟨false, s, by simp [dispatch, h1]⟩
      | obj fs => simp [jsCtor] at hctor
      | arr bs => simp [jsCtor] at hctor
      | oMap bs => simp [jsCtor] at hctor
      | oDate t => simp [jsCtor] at hctor
      | oRegex s2 f2 => simp [jsCtor] at hctor
      | oErr n2 m2 => simp [jsCtor] at hctor
  | oMap aes =>
      cases nb with
      | oMap bes =>
          by_cases h1 : jsStrictEq (.prim (.num (.int aes.length)))
            (readSize (.oMap bes))
          · simpa [dispatch, h1] using mapOuter_total cmp hc aes bes s
          · exact ⟨false, s, by simp [dispatch, h1]⟩
      | obj fs => simp [jsCtor] at hctor
      | arr bs => simp [jsCtor] at hctor
      | oSet bs => simp [jsCtor] at hctor
      | oDate t => simp [jsCtor] at hctor
      | oRegex s2 f2 => simp [jsCtor] at hctor
      | oErr n2 m2 => simp [jsCtor] at hctor
  | oDate t =>
      cases nb with
      | oDate t2 => exact ⟨decide (t = t2), s, by simp [dispatch]⟩
      | obj fs => simp [jsCtor] at hctor
      | arr bs => simp [jsCtor] at hctor
      | oSet bs => simp [jsCtor] at hctor
      | oMap bs => simp [jsCtor] at hctor
      | oRegex s2 f2 => simp [jsCtor] at hctor
      | oErr n2 m2 => simp [jsCtor] at hctor
  | oRegex src fl =>
      exact ⟨jsStrictEq (.prim (.str src)) (readSource nb) &&
             jsStrictEq (.prim (.str fl)) (readFlags nb), s, rfl⟩
  | oErr n m =>
      exact ⟨jsStrictEq (.prim (.str n)) (readName nb) &&
             jsStrictEq (.prim (.str m)) (readMessage nb), s, rfl⟩

theorem deepEqualCoreF_total (H : Heap) (opts : RequiredDeepEqualOptions)
    (hcp : opts.checkPrototypes = true) (hbx : NoBoxed H) :
    ∀ (fuel : Nat) (a b : Value) (s : Ledger),
      ∃ r s2, deepEqualCoreF H opts fuel a b s = .ok (r, s2) := by
  intro fuel
  induction fuel with
  | zero => exact fun a b s => ⟨false, s, rfl⟩
  | succ f ih =>
      intro a b s
      rw [deepEqualCoreF_succ]
      unfold stepF
      by_cases h1 : jsStrictEq a b
      · exact ⟨identityResult opts a b, s, by simp [h1]⟩
      · by_cases h2 : jsIsNaN a && jsIsNaN b
        · exact ⟨opts.nanEqual, s, by simp [h1, h2]⟩
        · cases a with
          | prim p => exact ⟨false, s, by cases b <;> simp [h1, h2]⟩
          | ref ra =>
              cases b with
              | prim q => exact ⟨false, s, by simp [h1, h2]⟩
              | ref rb =>
                  simp only [h1, h2]
                  cases hna : heapGet H ra with
                  | none => exact ⟨false, s, by simp [h1, h2, hna]⟩
                  | some na =>
                      cases hnb : heapGet H rb with
                      | none => exact ⟨false, s, by simp [h1, h2, hna, hnb]⟩
                      | some nb =>
                          by_cases hct : (jsCtor na != jsCtor nb) &&
                              opts.checkPrototypes
                          · exact ⟨false, s, by simp [h1, h2, hna, hnb, hct]⟩
                          · have heq : jsCtor na = jsCtor nb := by
                              rw [hcp] at hct
                              simpa using hct
                            cases hsn : seenGet s ra with
                            | some x =>
                                exact ⟨decide (x = rb), s, by
                                  simp [h1, h2, hna, hnb, hct, hsn]⟩
                            | none =>
                                obtain ⟨r, s2, hd⟩ :=
                                  dispatch_total _ ih na nb heq
                                    (hbx (ra, na) (heapGet_mem H ra na hna))
                                    ((ra, rb) :: s)
                                exact ⟨r, s2, by
                                  simp [h1, h2, hna, hnb, hct, hsn, hd]⟩

/-- Heap with two plain objects whose own `valueOf` keys (values 5 and 6,
neither callable) shadow `Object.prototype.valueOf`. -/
def boxedHeap : Heap :=
  [(0, .obj [("valueOf", .prim (.num (.int 5)))]),
   (1, .obj [("valueOf", .prim (.num (.int 6)))])]

/-- C8 counterexample: the comparator is not total.  A `Date` against a plain
object with default options reaches the `Date` branch, where the source
evaluates `(b as Date).getTime()` on a value with no `getTime` method and
throws a `TypeError`; and two plain objects with own non-callable `valueOf`
properties reach the boxed-primitive branch (line 109) and throw even with
`checkPrototypes` enabled, both constructors being `Object`. -/
theorem c8_counterexample :
    deepEqualCore dateObjHeap (.ref 0) (.ref 1) defaultOpts [] 0 = .error () ∧
    deepEqualCore boxedHeap (.ref 0) (.ref 1) ⟨true, true, false, 1000⟩ [] 0 =
      .error () := by
  constructor
  · decide
  · decide

/-- C8 amended: the comparator is not total — the `Date` branch throws on a
cross-category pair with `checkPrototypes` off, and the boxed-primitive
branch throws on a plain object with an own `valueOf` property even with
`checkPrototypes` on (see the counterexample).  On a heap none of whose
objects shadows `valueOf` it is total once `checkPrototypes` is enabled:
every input pair (cyclic and adversarially deep ones included) yields a
boolean, and exceeding `maxDepth` resolves to the value `false`. -/
theorem c8_total_when_checked :
    (∀ (H : Heap) (opts : RequiredDeepEqualOptions) (a b : Value)
        (seen : Ledger) (depth : Nat), opts.checkPrototypes = true →
        NoBoxed H →
        ∃ r s2, deepEqualCore H a b opts seen depth = .ok (r, s2)) ∧
    (∀ (H : Heap) (opts : RequiredDeepEqualOptions) (a b : Value)
        (seen : Ledger) (depth : Nat), depth > opts.maxDepth →
        deepEqualCore H a b opts seen depth = .ok (false, seen)) := by
  constructor
  · intro H opts a b seen depth hcp hbx
    exact deepEqualCoreF_total H opts hcp hbx _ a b seen
  · intro H opts a b seen depth hd
    unfold deepEqualCore
    have h2 : opts.maxDepth + 1 - depth = 0 := by omega
    rw [h2, deepEqualCoreF_zero]

theorem c8_total_when_checked_witness :
    (RequiredDeepEqualOptions.mk true true false 1000).checkPrototypes = true ∧
    NoBoxed dateObjHeap ∧
    (∃ r s2, deepEqualCore dateObjHeap (.ref 0) (.ref 1)
        ⟨true, true, false, 1000⟩ [] 0 = .ok (r, s2)) := by
  have hbx : NoBoxed dateObjHeap := by
    intro p hp
    simp only [dateObjHeap, List.mem_cons, List.not_mem_nil, or_false] at hp
    rcases hp with rfl | rfl <;> rfl
  exact ⟨rfl, hbx, c8_total_when_checked.1 dateObjHeap ⟨true, true, false, 1000⟩
    (.ref 0) (.ref 1) [] 0 rfl hbx⟩

end IsDeepEqual

namespace IsDeepEqual

/-! ## C5: a cycle through a Set element meets the depth guard -/

/-- Heap with two isomorphic cycles through a `Set` element (addresses 0-3:
a set containing an object whose field `s` points back at the set) and two
self-referential plain objects (addresses 4, 5). -/
def cycleHeap : Heap :=
  [(0, .oSet [.ref 1]), (1, .obj [("s", .ref 0)]),
   (2, .oSet [.ref 3]), (3, .obj [("s", .ref 2)]),
   (4, .obj [("self", .ref 4)]), (5, .obj [("self", .ref 5)])]

theorem cycleHeap_false (md : Nat) : ∀ (f : Nat),
    (∀ s : Ledger, seenGet s 0 = none →
      ∃ s2, deepEqualCoreF cycleHeap ⟨true, false, false, md⟩ f
        (.ref 0) (.ref 2) s = .ok (false, s2)) ∧
    (∀ s : Ledger, seenGet s 0 = none → seenGet s 1 = none →
      ∃ s2, deepEqualCoreF cycleHeap ⟨true, false, false, md⟩ f
        (.ref 1) (.ref 3) s = .ok (false, s2)) := by
  intro f
  induction f with
  | zero => exact ⟨fun s _ => ⟨s, rfl⟩, fun s _ _ => ⟨s, rfl⟩⟩
  | succ f ih =>
      have e0 : heapGet cycleHeap 0 = some (.oSet [.ref 1]) := rfl
      have e1 : heapGet cycleHeap 1 = some (.obj [("s", .ref 0)]) := rfl
      have e2 : heapGet cycleHeap 2 = some (.oSet [.ref 3]) := rfl
      have e3 : heapGet cycleHeap 3 = some (.obj [("s", .ref 2)]) := rfl
      constructor
      · intro s h0
        obtain ⟨s2, hQ⟩ := ih.2 [] rfl rfl
        refine ⟨(0, 2) :: s, ?_⟩
        rw [deepEqualCoreF_succ]
        unfold stepF
        simp [jsStrictEq, jsIsNaN, e0, e2, jsCtor, h0, dispatch,
          readSize, jsNumEq, compareSet, setOuter, setScan, hQ, Except.map]
      · intro s h0 h1
        obtain ⟨s2, hP⟩ := ih.1 ((1, 3) :: s) (by simp [seenGet, h0])
        refine ⟨s2, ?_⟩
        rw [deepEqualCoreF_succ]
        unfold stepF
        simp [jsStrictEq, jsIsNaN, e1, e3, jsCtor, h1, dispatch,
          compareObject, jsOwnKeys, jsHasOwn, objLoop, jsField, jsFieldRead, hP]

/-- C5 counterexample: the canonical reference cycle passing through a `Set`
element — a set whose single element is an object pointing back at the set,
on both sides — does not recurse unboundedly: the call terminates and
evaluates to the boolean `false`. -/
theorem c5_counterexample :
    resultOf (deepEqualCore cycleHeap (.ref 0) (.ref 2)
      ⟨true, false, false, 3⟩ [] 0) = .ok false := by decide

/-- C5 amended: a reference cycle through a `Set` element is not protected by
the ledger (each candidate pairing starts from a fresh empty ledger), so the
comparator is not stopped by cycle detection; instead it recurses until the
depth guard fires and returns `false`, at every `maxDepth` ceiling — whereas
the corresponding cycle through plain objects is resolved by the ledger to
`true` (for any `maxDepth ≥ 1`). -/
theorem c5_cycle_depth_guard :
    (∀ md : Nat, resultOf (deepEqualCore cycleHeap (.ref 0) (.ref 2)
        ⟨true, false, false, md⟩ [] 0) = .ok false) ∧
    (∀ md : Nat, 1 ≤ md → resultOf (deepEqualCore cycleHeap (.ref 4) (.ref 5)
        ⟨true, false, false, md⟩ [] 0) = .ok true) := by
  constructor
  · intro md
    obtain ⟨s2, h⟩ := (cycleHeap_false md (md + 1)).1 [] rfl
    unfold deepEqualCore resultOf
    simp only [Nat.sub_zero]
    rw [h]
    rfl
  · intro md hmd
    obtain ⟨k, rfl⟩ : ∃ k, md = k + 1 := ⟨md - 1, by omega⟩
    unfold deepEqualCore resultOf
    simp only [Nat.sub_zero]
    rw [show k + 1 + 1 = (k + 1) + 1 from rfl, deepEqualCoreF_succ]
    unfold stepF
    rw [deepEqualCoreF_succ]
    simp [jsStrictEq, jsIsNaN, heapGet, cycleHeap, jsCtor, seenGet, dispatch,
      compareObject, jsOwnKeys, jsHasOwn, objLoop, jsField, jsFieldRead, stepF,
      Except.map]

theorem c5_cycle_depth_guard_witness :
    resultOf (deepEqualCore cycleHeap (.ref 0) (.ref 2)
      ⟨true, false, false, 7⟩ [] 0) = .ok false ∧
    (1 ≤ (1 : Nat) ∧ resultOf (deepEqualCore cycleHeap (.ref 4) (.ref 5)
      ⟨true, false, false, 1⟩ [] 0) = .ok true) :=
  ⟨c5_cycle_depth_guard.1 7, le_refl 1, c5_cycle_depth_guard.2 1 (le_refl 1)⟩

end IsDeepEqual

namespace IsDeepEqual

/-! ## Shared reduction lemmas -/

theorem deepEqualCore_dispatch (H : Heap) (ra rb : Nat) (na nb : HObject)
    (opts : RequiredDeepEqualOptions) (seen : Ledger) (depth : Nat)
    (hd : depth ≤ opts.maxDepth) (hne : ra ≠ rb)
    (hna : heapGet H ra = some na) (hnb : heapGet H rb = some nb)
    (hctor : ((jsCtor na != jsCtor nb) && opts.checkPrototypes) = false)
    (hseen : seenGet seen ra = none) :
    deepEqualCore H (.ref ra) (.ref rb) opts seen depth =
      dispatch (deepEqualCoreF H opts (opts.maxDepth - depth)) na nb
        ((ra, rb) :: seen) := by
  rw [deepEqualCore_fuel _ _ _ _ _ _ hd]
  unfold stepF
  simp [jsStrictEq, jsIsNaN, hne, hna, hnb, hctor, hseen]

theorem childCmp_eq (H : Heap) (opts : RequiredDeepEqualOptions) (depth : Nat)
    (hd : depth ≤ opts.maxDepth) :
    (fun x y s => deepEqualCore H x y opts s (depth + 1)) =
      deepEqualCoreF H opts (opts.maxDepth - depth) := by
  funext x y s
  exact deepEqualCore_child H x y opts s depth hd

theorem jsStrictEq_natInt (m n : Nat) :
    jsStrictEq (.prim (.num (.int m))) (.prim (.num (.int n))) = decide (m = n) := by
  by_cases h : m = n
  · subst h; simp [jsStrictEq, jsNumEq]
  · have h2 : (m : Int) ≠ (n : Int) := by exact_mod_cast h
    simp [jsStrictEq, jsNumEq, h, h2]

theorem dispatch_oMap_eq (cmp : ChildCmp) (aes bes : List (Value × Value))
    (seen : Ledger) :
    dispatch cmp (.oMap aes) (.oMap bes) seen =
      if aes.length = bes.length then mapOuter cmp aes bes seen
      else .ok (false, seen) := by
  simp only [dispatch]
  rw [show readSize (.oMap bes) = .prim (.num (.int bes.length)) from rfl,
    jsStrictEq_natInt]
  by_cases h : aes.length = bes.length <;> simp [h]

theorem dispatch_oSet_eq (cmp : ChildCmp) (as bs : List Value) (seen : Ledger) :
    dispatch cmp (.oSet as) (.oSet bs) seen =
      if as.length = bs.length then
        (compareSet cmp as bs).map (fun r => (r, seen))
      else .ok (false, seen) := by
  simp only [dispatch]
  rw [show readSize (.oSet bs) = .prim (.num (.int bs.length)) from rfl,
    jsStrictEq_natInt]
  by_cases h : as.length = bs.length <;> simp [h]

/-- Matching procedure described by the claim for Maps: first-fit matching of
the entries of `a` against the entries of `b` (key and value both equal,
reusing the caller ledger), with entries of `b` claimed by an earlier match
excluded.  This is the claimed behaviour, to be compared with the source. -/
def specMapScanClaimed (cmp : ChildCmp) (k v : Value) :
    List (Nat × (Value × Value)) → List Nat → Ledger →
      Except Unit (Option Nat × Ledger)
  | [], _, seen => .ok (none, seen)
  | (j, (k2, v2)) :: rest, claimed, seen =>
      if j ∈ claimed then specMapScanClaimed cmp k v rest claimed seen
      else
        match cmp k k2 seen with
        | .error e => .error e
        | .ok (rk, s1) =>
            if rk then
              match cmp v v2 s1 with
              | .error e => .error e
              | .ok (rv, s2) =>
                  if rv then .ok (some j, s2)
                  else specMapScanClaimed cmp k v rest claimed s2
            else specMapScanClaimed cmp k v rest claimed s1

/-- Outer loop of the claimed Map procedure (with claiming). -/
def specMapOuterClaimed (cmp : ChildCmp) :
    List (Value × Value) → List (Nat × (Value × Value)) → List Nat → Ledger →
      JsResult
  | [], _, _, seen => .ok (true, seen)
  | (k, v) :: rest, bes, claimed, seen =>
      match specMapScanClaimed cmp k v bes claimed seen with
      | .error e => .error e
      | .ok (none, s1) => .ok (false, s1)
      | .ok (some j, s1) => specMapOuterClaimed cmp rest bes (j :: claimed) s1

/-- Heap for the Map counterexample: addresses 0-3 hold empty objects (all
structurally equal, pairwise distinct references); address 10 holds
`Map\x7b\x7b\x7d→1, \x7b\x7d→1\x7d` and address 11 holds
`Map\x7b\x7b\x7d→1, \x7b\x7d→2\x7d`. -/
def mapHeap : Heap :=
  [(0, .obj []), (1, .obj []), (2, .obj []), (3, .obj []),
   (10, .oMap [(.ref 0, .prim (.num (.int 1))), (.ref 1, .prim (.num (.int 1)))]),
   (11, .oMap [(.ref 2, .prim (.num (.int 1))), (.ref 3, .prim (.num (.int 2)))])]

/-- C3 counterexample: on `Map\x7b\x7b\x7d→1, \x7b\x7d→1\x7d` vs
`Map\x7b\x7b\x7d→1, \x7b\x7d→2\x7d` the source returns `true` (both entries
of `a` match the first entry of `b`, which is never claimed), while the
procedure described by the claim — with entries of `b` excluded once claimed
— returns `false` on the same entries.  So the claiming caveat is not part of
the Map comparator. -/
theorem c3_counterexample :
    resultOf (deepEqualCore mapHeap (.ref 10) (.ref 11) defaultOpts [] 0) =
      .ok true ∧
    (specMapOuterClaimed (deepEqualCoreF mapHeap defaultOpts 1000)
        [(.ref 0, .prim (.num (.int 1))), (.ref 1, .prim (.num (.int 1)))]
        ([(.ref 2, .prim (.num (.int 1))), (.ref 3, .prim (.num (.int 2)))].enum)
        [] [(10, 11)]).map Prod.fst = .ok false := by
  constructor
  · decide
  · decide

/-- Matching procedure of the amended claim, following its words: each entry
of `a` searches all entries of `b` in order for one whose key and then value
compare equal (threading the caller ledger through every recursive call, the
value compared only after the key matched); no entry of `b` is ever claimed
or excluded; an entry of `a` with no match makes the maps unequal. -/
def specMapFind (cmp : ChildCmp) (k v : Value) :
    List (Value × Value) → Ledger → Except Unit (Bool × Ledger)
  | [], seen => .ok (false, seen)
  | (k2, v2) :: rest, seen =>
      match cmp k k2 seen with
      | .error e => .error e
      | .ok (kEq, s1) =>
          if kEq then
            match cmp v v2 s1 with
            | .error e => .error e
            | .ok (vEq, s2) =>
                if vEq then .ok (true, s2) else specMapFind cmp k v rest s2
          else specMapFind cmp k v rest s1

/-- Outer loop of the amended Map matching. -/
def specMapMatch (cmp : ChildCmp) :
    List (Value × Value) → List (Value × Value) → Ledger → JsResult
  | [], _, seen => .ok (true, seen)
  | (k, v) :: rest, bes, seen =>
      match specMapFind cmp k v bes seen with
      | .error e => .error e
      | .ok (found, s1) =>
          if found then specMapMatch cmp rest bes s1 else .ok (false, s1)

theorem specMapFind_eq_mapScan (cmp : ChildCmp) (k v : Value) :
    ∀ (bes : List (Value × Value)) (s : Ledger),
      specMapFind cmp k v bes s = mapScan cmp k v bes s := by
  intro bes
  induction bes with
  | nil => intro s; rfl
  | cons p rest ih =>
      intro s
      obtain ⟨k2, v2⟩ := p
      unfold specMapFind mapScan
      cases hc : cmp k k2 s with
      | error e => simp
      | ok p1 =>
          obtain ⟨rk, s1⟩ := p1
          cases rk with
          | false => simp [ih]
          | true =>
              cases hv : cmp v v2 s1 with
              | error e => simp [hv]
              | ok p2 =>
                  obtain ⟨rv, s2⟩ := p2
                  cases rv with
                  | false => simp [hv, ih]
                  | true => simp [hv]

theorem specMapMatch_eq_mapOuter (cmp : ChildCmp) :
    ∀ (aes bes : List (Value × Value)) (s : Ledger),
      specMapMatch cmp aes bes s = mapOuter cmp aes bes s := by
  intro aes
  induction aes with
  | nil => intro bes s; rfl
  | cons p rest ih =>
      intro bes s
      obtain ⟨k, v⟩ := p
      unfold specMapMatch mapOuter
      rw [specMapFind_eq_mapScan]
      cases mapScan cmp k v bes s with
      | error e => rfl
      | ok p1 =>
          obtain ⟨found, s1⟩ := p1
          cases found with
          | false => simp
          | true => simp [ih]

/-- C3 amended: after the size check, each entry of map `a` is matched
first-fit against the entries of map `b` by key and value (recursing with
depth+1 and reusing, and threading, the caller ledger), but entries of `b`
already matched are NOT excluded from matching later entries of `a` — there
is no claiming; if some entry of `a` matches no entry of `b`, the maps
compare unequal. -/
theorem c3_map_no_claiming (H : Heap) (ra rb : Nat)
    (aes bes : List (Value × Value)) (opts : RequiredDeepEqualOptions)
    (seen : Ledger) (depth : Nat)
    (hd : depth ≤ opts.maxDepth) (hne : ra ≠ rb)
    (hna : heapGet H ra = some (.oMap aes)) (hnb : heapGet H rb = some (.oMap bes))
    (hseen : seenGet seen ra = none) :
    (aes.length ≠ bes.length →
      deepEqualCore H (.ref ra) (.ref rb) opts seen depth =
        .ok (false, (ra, rb) :: seen)) ∧
    (aes.length = bes.length →
      deepEqualCore H (.ref ra) (.ref rb) opts seen depth =
        specMapMatch (fun x y s => deepEqualCore H x y opts s (depth + 1))
          aes bes ((ra, rb) :: seen)) := by
  have hdisp := deepEqualCore_dispatch H ra rb (.oMap aes) (.oMap bes) opts seen
    depth hd hne hna hnb (by simp [jsCtor]) hseen
  constructor
  · intro hlen
    rw [hdisp, dispatch_oMap_eq, if_neg hlen]
  · intro hlen
    rw [hdisp, dispatch_oMap_eq, if_pos hlen,
      specMapMatch_eq_mapOuter, childCmp_eq H opts depth hd]

theorem c3_map_no_claiming_witness :
    deepEqualCore mapHeap (.ref 10) (.ref 11) defaultOpts [] 0 =
      specMapMatch (fun x y s => deepEqualCore mapHeap x y defaultOpts s 1)
        [(.ref 0, .prim (.num (.int 1))), (.ref 1, .prim (.num (.int 1)))]
        [(.ref 2, .prim (.num (.int 1))), (.ref 3, .prim (.num (.int 2)))]
        [(10, 11)] :=
  (c3_map_no_claiming mapHeap 10 11
    [(.ref 0, .prim (.num (.int 1))), (.ref 1, .prim (.num (.int 1)))]
    [(.ref 2, .prim (.num (.int 1))), (.ref 3, .prim (.num (.int 2)))]
    defaultOpts [] 0 (by decide) (by decide) (by decide) (by decide)
    (by decide)).2 rfl

end IsDeepEqual

namespace IsDeepEqual

/-! ## C4: Set matching — first-fit with claiming and fresh ledgers -/

/-- Inner search of the matching procedure described by the claim for Sets:
find the first element of `b` (with its position) that is not already claimed
and compares structurally equal to `x` under the pairing comparison `eqv`. -/
def specSetScan (eqv : Value → Value → Except Unit Bool) (x : Value) :
    List (Nat × Value) → List Nat → Except Unit (Option Nat)
  | [], _ => .ok none
  | (j, y) :: ys, claimed =>
      if j ∈ claimed then specSetScan eqv x ys claimed
      else
        match eqv x y with
        | .error e => .error e
        | .ok r => if r then .ok (some j) else specSetScan eqv x ys claimed

/-- First-fit matching described by the claim for Sets: each element of `a`
greedily claims the first structurally-equal unclaimed element of `b`; an
element with no unclaimed match makes the result `false`. -/
def specSetFirstFit (eqv : Value → Value → Except Unit Bool) :
    List Value → List (Nat × Value) → List Nat → Except Unit Bool
  | [], _, _ => .ok true
  | x :: xs, ys, claimed =>
      match specSetScan eqv x ys claimed with
      | .error e => .error e
      | .ok none => .ok false
      | .ok (some j) => specSetFirstFit eqv xs ys (j :: claimed)

theorem setScan_eq_spec (cmp : ChildCmp) (x : Value) :
    ∀ (ys : List (Nat × Value)) (claimed : List Nat),
      setScan cmp x ys claimed =
        specSetScan (fun a b => (cmp a b []).map Prod.fst) x ys claimed := by
  intro ys
  induction ys with
  | nil => intro claimed; rfl
  | cons p rest ih =>
      intro claimed
      obtain ⟨j, y⟩ := p
      unfold setScan specSetScan
      by_cases hj : j ∈ claimed
      · simp [hj, ih]
      · cases hc : cmp x y [] with
        | error e => simp [hj, hc, Except.map]
        | ok p1 =>
            obtain ⟨r, s1⟩ := p1
            cases r with
            | true => simp [hj, hc, Except.map]
            | false => simp [hj, hc, Except.map, ih]

theorem setOuter_eq_spec (cmp : ChildCmp) :
    ∀ (xs : List Value) (ys : List (Nat × Value)) (claimed : List Nat),
      setOuter cmp xs ys claimed =
        specSetFirstFit (fun a b => (cmp a b []).map Prod.fst) xs ys claimed := by
  intro xs
  induction xs with
  | nil => intro ys claimed; rfl
  | cons x rest ih =>
      intro ys claimed
      unfold setOuter specSetFirstFit
      rw [setScan_eq_spec]
      cases specSetScan (fun a b => (cmp a b []).map Prod.fst) x ys claimed with
      | error e => rfl
      | ok o =>
          cases o with
          | none => rfl
          | some j => simp [ih]

theorem compareSet_eq_spec (cmp : ChildCmp) (as bs : List Value)
    (hlen : as.length = bs.length) :
    compareSet cmp as bs =
      if as.length ≤ 10 then
        specSetFirstFit (fun a b => (cmp a b []).map Prod.fst) as bs.enum []
      else
        specSetFirstFit (fun a b => (cmp a b []).map Prod.fst)
          as.reverse bs.enum.reverse [] := by
  unfold compareSet
  by_cases h : as.length ≤ 10
  · rw [if_pos h, if_pos h, setOuter_eq_spec]
  · rw [if_neg h, if_neg h, if_neg (by simp [hlen]), setOuter_eq_spec]

/-- C4: on two sets, different sizes compare unequal; with equal sizes the
result is first-fit matching with claiming, where every candidate pairing is
the comparator at depth+1 started on a fresh empty ledger (visible as the
literal `[]` passed to the pairing call), and an element of `a` with no
unclaimed match makes the sets unequal.  Sets of at most 10 elements are
matched in forward insertion order; larger sets through the array conversion
in reverse order. -/
theorem c4_set_first_fit (H : Heap) (ra rb : Nat) (as bs : List Value)
    (opts : RequiredDeepEqualOptions) (seen : Ledger) (depth : Nat)
    (hd : depth ≤ opts.maxDepth) (hne : ra ≠ rb)
    (hna : heapGet H ra = some (.oSet as)) (hnb : heapGet H rb = some (.oSet bs))
    (hseen : seenGet seen ra = none) :
    (as.length ≠ bs.length →
      deepEqualCore H (.ref ra) (.ref rb) opts seen depth =
        .ok (false, (ra, rb) :: seen)) ∧
    (as.length = bs.length →
      deepEqualCore H (.ref ra) (.ref rb) opts seen depth =
        (if as.length ≤ 10 then
          specSetFirstFit
            (fun x y => (deepEqualCore H x y opts [] (depth + 1)).map Prod.fst)
            as bs.enum []
        else
          specSetFirstFit
            (fun x y => (deepEqualCore H x y opts [] (depth + 1)).map Prod.fst)
            as.reverse bs.enum.reverse []).map
          (fun r => (r, (ra, rb) :: seen))) := by
  have hdisp := deepEqualCore_dispatch H ra rb (.oSet as) (.oSet bs) opts seen
    depth hd hne hna hnb (by simp [jsCtor]) hseen
  constructor
  · intro hlen
    rw [hdisp, dispatch_oSet_eq, if_neg hlen]
  · intro hlen
    have hch : (fun x y =>
        (deepEqualCore H x y opts [] (depth + 1)).map Prod.fst) =
        (fun a b =>
          (deepEqualCoreF H opts (opts.maxDepth - depth) a b []).map Prod.fst) := by
      funext a b
      rw [deepEqualCore_child _ _ _ _ _ _ hd]
    rw [hdisp, dispatch_oSet_eq, if_pos hlen,
      compareSet_eq_spec _ _ _ hlen, hch]

/-- Heap with two singleton sets holding the number 1. -/
def setWitnessHeap : Heap :=
  [(0, .oSet [.prim (.num (.int 1))]), (1, .oSet [.prim (.num (.int 1))])]

theorem c4_set_first_fit_witness :
    deepEqualCore setWitnessHeap (.ref 0) (.ref 1) defaultOpts [] 0 =
      (if ([Value.prim (.num (.int 1))] : List Value).length ≤ 10 then
        specSetFirstFit
          (fun x y =>
            (deepEqualCore setWitnessHeap x y defaultOpts [] 1).map Prod.fst)
          [.prim (.num (.int 1))] ([Value.prim (.num (.int 1))] : List Value).enum []
      else
        specSetFirstFit
          (fun x y =>
            (deepEqualCore setWitnessHeap x y defaultOpts [] 1).map Prod.fst)
          ([Value.prim (.num (.int 1))] : List Value).reverse
          ([Value.prim (.num (.int 1))] : List Value).enum.reverse []).map
        (fun r => (r, [(0, 1)])) :=
  (c4_set_first_fit setWitnessHeap 0 1 [.prim (.num (.int 1))]
    [.prim (.num (.int 1))] defaultOpts [] 0 (by decide) (by decide)
    (by decide) (by decide) (by decide)).2 rfl

end IsDeepEqual

namespace IsDeepEqual

/-! ## C9: the generic object fallback -/

theorem keys_perm_of_subset (kA kB : List String) (hndA : kA.Nodup)
    (hlen : kA.length = kB.length) (hsub : ∀ k ∈ kA, k ∈ kB) :
    kA.Perm kB :=
  (hndA.subperm hsub).perm_of_length_le (le_of_eq hlen.symm)

end IsDeepEqual

namespace IsDeepEqual

/-! ## C10: the two Set branches are not equivalent -/

end IsDeepEqual

namespace IsDeepEqual

/-! ## C2: symmetry — counterexample and the tree-shaped fragment -/

/-- Heap with shared substructure: address 3 holds the array `[s, s]` (the
same empty array referenced twice) and address 4 holds `[t1, t2]` (two
structurally equal but distinct empty arrays). -/
def dagHeap : Heap :=
  [(0, .arr []), (1, .arr []), (2, .arr []),
   (3, .arr [.ref 0, .ref 0]), (4, .arr [.ref 1, .ref 2])]

/-- C2 counterexample: the inputs are acyclic and contain no Set or Map at
all, yet `compare([s,s], [t1,t2])` is `false` (the ledger records `s ↦ t2`
while comparing the second element first, then rejects `s` against `t1`)
while `compare([t1,t2], [s,s])` is `true` — symmetry fails. -/
theorem c2_counterexample :
    resultOf (deepEqualCore dagHeap (.ref 3) (.ref 4) defaultOpts [] 0) =
      .ok false ∧
    resultOf (deepEqualCore dagHeap (.ref 4) (.ref 3) defaultOpts [] 0) =
      .ok true := by
  constructor
  · decide
  · decide

/-- Node well-formedness for the tree fragment: a plain object has
duplicate-free keys (JavaScript objects cannot hold two own properties under
one key) and owns no `valueOf` key (such objects are diverted to the
throwing boxed-primitive branch, source line 109, before the object
fallback); `true` for every non-object node. -/
def nodeKeysOk : HObject → Bool
  | .obj fs => decide ((fs.map Prod.fst).Nodup ∧ "valueOf" ∉ fs.map Prod.fst)
  | _ => true

/-- Well-formed heap: every object node has duplicate-free keys and does not
shadow `valueOf`. -/
def WFKeys (H : Heap) : Prop := ∀ p ∈ H, nodeKeysOk p.2 = true

theorem wfKeys_nodup (H : Heap) (hwf : WFKeys H) (a : Nat)
    (fs : List (String × Value)) (h : heapGet H a = some (.obj fs)) :
    (fs.map Prod.fst).Nodup := by
  have h2 := hwf (a, .obj fs) (heapGet_mem H a (.obj fs) h)
  have h3 : (fs.map Prod.fst).Nodup ∧ "valueOf" ∉ fs.map Prod.fst := by
    simpa [nodeKeysOk] using h2
  exact h3.1

theorem wfKeys_noValueOf (H : Heap) (hwf : WFKeys H) (a : Nat)
    (fs : List (String × Value)) (h : heapGet H a = some (.obj fs)) :
    "valueOf" ∉ fs.map Prod.fst := by
  have h2 := hwf (a, .obj fs) (heapGet_mem H a (.obj fs) h)
  have h3 : (fs.map Prod.fst).Nodup ∧ "valueOf" ∉ fs.map Prod.fst := by
    simpa [nodeKeysOk] using h2
  exact h3.2


mutual

/-- The value `v` denotes a tree in heap `H`: no reference cycles and no
shared references; `A` lists exactly the addresses reachable from `v`
(membership-characterized, so any list with the right members can index the
derivation).  Sets and Maps have no constructor here: a tree contains only
primitives, plain objects, arrays, dates, regular expressions and errors. -/
inductive TreeAt (H : Heap) : Value → List Nat → Prop where
  | prim (p : Prim) (C : List Nat) :
      (∀ x : Nat, x ∉ C) → TreeAt H (.prim p) C
  | node (a : Nat) (nd : HObject) (A C : List Nat) :
      heapGet H a = some nd → TreeNode H nd A → a ∉ A →
      (∀ x, x ∈ C ↔ x = a ∨ x ∈ A) → TreeAt H (.ref a) C

/-- The children of a heap node form trees with pairwise disjoint address
sets. -/
inductive TreeNode (H : Heap) : HObject → List Nat → Prop where
  | obj (fs : List (String × Value)) (A : List Nat) :
      TreeVals H (fs.map Prod.snd) A → TreeNode H (.obj fs) A
  | arr (es : List Value) (A : List Nat) :
      TreeVals H es A → TreeNode H (.arr es) A
  | date (t : Int) (C : List Nat) :
      (∀ x : Nat, x ∉ C) → TreeNode H (.oDate t) C
  | regex (src fl : String) (C : List Nat) :
      (∀ x : Nat, x ∉ C) → TreeNode H (.oRegex src fl) C
  | err (n m : String) (C : List Nat) :
      (∀ x : Nat, x ∉ C) → TreeNode H (.oErr n m) C

/-- A list of values, all trees, with pairwise disjoint address sets. -/
inductive TreeVals (H : Heap) : List Value → List Nat → Prop where
  | nil (C : List Nat) : (∀ x : Nat, x ∉ C) → TreeVals H [] C
  | cons (v : Value) (vs : List Value) (A B C : List Nat) :
      TreeAt H v A → TreeVals H vs B → (∀ x ∈ A, x ∉ B) →
      (∀ x, x ∈ C ↔ x ∈ A ∨ x ∈ B) → TreeVals H (v :: vs) C

end

theorem treeVals_mem_congr (H : Heap) (vs : List Value) (C C2 : List Nat)
    (h : TreeVals H vs C) (hC : ∀ x, x ∈ C ↔ x ∈ C2) : TreeVals H vs C2 := by
  cases h with
  | nil _ hemp =>
      exact TreeVals.nil C2 (fun x hx => hemp x ((hC x).mpr hx))
  | cons v vs A B _ hv hvs hdisj hiff =>
      exact TreeVals.cons v vs A B C2 hv hvs hdisj
        (fun x => (hC x).symm.trans (hiff x))

theorem treeVals_append (H : Heap) :
    ∀ (vs1 : List Value) (A1 : List Nat), TreeVals H vs1 A1 →
    ∀ (vs2 : List Value) (A2 : List Nat), TreeVals H vs2 A2 →
    (∀ x ∈ A1, x ∉ A2) → TreeVals H (vs1 ++ vs2) (A1 ++ A2) := by
  intro vs1
  induction vs1 with
  | nil =>
      intro A1 h1 vs2 A2 h2 hdisj
      cases h1 with
      | nil _ hemp =>
          simp only [List.nil_append]
          exact treeVals_mem_congr H vs2 A2 (A1 ++ A2) h2
            (fun x => by
              simp only [List.mem_append]
              exact ⟨Or.inr, fun h => h.elim (fun hx => absurd hx (hemp x)) id⟩)
  | cons v vs ih =>
      intro A1 h1 vs2 A2 h2 hdisj
      cases h1 with
      | cons _ _ A B _ hv hvs hd hiff =>
          have hBsub : ∀ x ∈ B, x ∈ A1 := fun x hx => (hiff x).mpr (Or.inr hx)
          have hAsub : ∀ x ∈ A, x ∈ A1 := fun x hx => (hiff x).mpr (Or.inl hx)
          refine TreeVals.cons v (vs ++ vs2) A (B ++ A2) (A1 ++ A2)
            hv (ih B hvs vs2 A2 h2 (fun x hx => hdisj x (hBsub x hx))) ?_ ?_
          · intro x hx
            simp only [List.mem_append]
            rintro (hB | hA2)
            · exact hd x hx hB
            · exact hdisj x (hAsub x hx) hA2
          · intro x
            simp only [List.mem_append, hiff x]
            tauto

theorem treeVals_reverse (H : Heap) :
    ∀ (vs : List Value) (C : List Nat), TreeVals H vs C →
      TreeVals H vs.reverse C := by
  intro vs
  induction vs with
  | nil => intro C h; simpa using h
  | cons v rest ih =>
      intro C h
      cases h with
      | cons _ _ A B _ hv hvs hd hiff =>
          have hsingle : TreeVals H [v] A :=
            TreeVals.cons v [] A [] A hv (TreeVals.nil [] (by simp))
              (by simp) (by simp)
          have happ := treeVals_append H rest.reverse B (ih B hvs) [v] A hsingle
            (fun x hx hA => hd x hA hx)
          rw [List.reverse_cons]
          exact treeVals_mem_congr H _ _ C happ
            (fun x => by simp only [List.mem_append, hiff x]; tauto)

end IsDeepEqual

namespace IsDeepEqual

/-- One unfolding of the ledger-free reference comparator used to reason
about tree-shaped inputs: identical to `stepF`/`dispatch` except that no
ledger is consulted, recorded or threaded (on trees the ledger never hits),
the Set/Map branches are `false` (trees contain neither), and there is no
boxed-primitive guard (`WFKeys` heaps have no object with an own `valueOf`
key, so the guard never fires where the two comparators are equated). -/
def pureStep (H : Heap) (opts : RequiredDeepEqualOptions)
    (pc : Value → Value → Bool) (a b : Value) : Bool :=
  if jsStrictEq a b then identityResult opts a b
  else if jsIsNaN a && jsIsNaN b then opts.nanEqual
  else
    match a, b with
    | .ref ra, .ref rb =>
        match heapGet H ra, heapGet H rb with
        | some na, some nb =>
            if (jsCtor na != jsCtor nb) && opts.checkPrototypes then false
            else
              match na with
              | .arr as =>
                  jsStrictEq (.prim (.num (.int as.length))) (readLength nb) &&
                  (arrPairs as nb).all (fun p => pc p.1 p.2)
              | .oRegex src fl =>
                  jsStrictEq (.prim (.str src)) (readSource nb) &&
                  jsStrictEq (.prim (.str fl)) (readFlags nb)
              | .oDate t =>
                  (match nb with | .oDate t2 => decide (t = t2) | _ => false)
              | .oErr n m =>
                  jsStrictEq (.prim (.str n)) (readName nb) &&
                  jsStrictEq (.prim (.str m)) (readMessage nb)
              | .oSet _ => false
              | .oMap _ => false
              | .obj fA =>
                  decide ((fA.map Prod.fst).length = (jsOwnKeys nb).length) &&
                  (fA.map Prod.fst).all (fun k => jsHasOwn nb k) &&
                  (fA.map Prod.fst).reverse.all
                    (fun k => pc (jsField fA k) (jsFieldRead nb k))
        | _, _ => false
    | _, _ => false

/-- The ledger-free comparator, fuel-indexed like `deepEqualCoreF`. -/
def pureCompare (H : Heap) (opts : RequiredDeepEqualOptions) :
    Nat → Value → Value → Bool
  | 0 => fun _ _ => false
  | fuel + 1 => pureStep H opts (pureCompare H opts fuel)

theorem pureCompare_succ (H : Heap) (opts : RequiredDeepEqualOptions)
    (fuel : Nat) :
    pureCompare H opts (fuel + 1) = pureStep H opts (pureCompare H opts fuel) :=
  rfl

theorem beq_symm_eq {α : Type} [BEq α] [LawfulBEq α] (x y : α) :
    (x == y) = (y == x) := by
  rw [Bool.eq_iff_iff]
  simp only [beq_iff_eq]
  exact eq_comm

theorem jsNumEq_symm (x y : JsNum) : jsNumEq x y = jsNumEq y x := by
  cases x <;> cases y <;>
    first
    | (simp only [jsNumEq]; exact beq_symm_eq _ _)
    | simp [jsNumEq]

theorem jsStrictEq_symm (a b : Value) : jsStrictEq a b = jsStrictEq b a := by
  cases a with
  | prim p =>
      cases b with
      | prim q =>
          cases p <;> cases q <;>
            simp [jsStrictEq, jsNumEq_symm, beq_symm_eq]
      | ref rb => simp [jsStrictEq]
  | ref ra =>
      cases b with
      | prim q => simp [jsStrictEq]
      | ref rb => simp [jsStrictEq, beq_symm_eq]

theorem jsStrictEq_zero_right (a b : Value) (h : jsStrictEq a b = true) :
    jsStrictEq a zeroV = jsStrictEq b zeroV := by
  cases a with
  | prim p =>
      cases b with
      | prim q =>
          cases p with
          | num x =>
              cases q with
              | num y =>
                  cases x <;> cases y <;>
                    simp_all [jsStrictEq, jsNumEq, zeroV]
              | undefV => simp_all [jsStrictEq]
              | nullV => simp_all [jsStrictEq]
              | boolV c => simp_all [jsStrictEq]
              | str s2 => simp_all [jsStrictEq]
          | undefV => cases q <;> simp_all [jsStrictEq, zeroV]
          | nullV => cases q <;> simp_all [jsStrictEq, zeroV]
          | boolV c => cases q <;> simp_all [jsStrictEq, zeroV]
          | str s2 => cases q <;> simp_all [jsStrictEq, zeroV]
      | ref rb => simp_all [jsStrictEq]
  | ref ra =>
      cases b with
      | prim q => simp_all [jsStrictEq]
      | ref rb => simp [jsStrictEq, zeroV]

theorem identityResult_symm (opts : RequiredDeepEqualOptions) (a b : Value)
    (h : jsStrictEq a b = true) :
    identityResult opts a b = identityResult opts b a := by
  unfold identityResult
  rw [jsStrictEq_zero_right a b h]
  have hz : (jsZeroPos a == jsZeroPos b) = (jsZeroPos b == jsZeroPos a) := by
    cases jsZeroPos a <;> cases jsZeroPos b <;> rfl
  rw [hz]

theorem all_congr_list {α : Type} (l : List α) (f g : α → Bool)
    (h : ∀ x ∈ l, f x = g x) : l.all f = l.all g := by
  induction l with
  | nil => rfl
  | cons x xs ih =>
      simp only [List.all_cons]
      rw [h x (List.mem_cons_self _ _), ih (fun y hy => h y (List.mem_cons_of_mem _ hy))]

theorem perm_all {α : Type} (l₁ l₂ : List α) (h : List.Perm l₁ l₂)
    (f : α → Bool) : l₁.all f = l₂.all f := by
  rw [Bool.eq_iff_iff]
  simp only [List.all_eq_true]
  constructor
  · intro ha x hx; exact ha x (h.symm.subset hx)
  · intro ha x hx; exact ha x (h.subset hx)

theorem all_map_eq {α β : Type} (l : List α) (g : α → β) (f : β → Bool) :
    (l.map g).all f = l.all (fun x => f (g x)) := by
  induction l with
  | nil => rfl
  | cons x xs ih => simp [ih]

end IsDeepEqual

namespace IsDeepEqual

theorem jsStrictEq_str (s1 s2 : String) :
    jsStrictEq (.prim (.str s1)) (.prim (.str s2)) = (s1 == s2) := rfl


theorem pureCompare_symm (H : Heap) (opts : RequiredDeepEqualOptions)
    (hcp : opts.checkPrototypes = true) (hwf : WFKeys H) :
    ∀ (fuel : Nat) (a b : Value),
      pureCompare H opts fuel a b = pureCompare H opts fuel b a := by
  intro fuel
  induction fuel with
  | zero => intro a b; rfl
  | succ f ih =>
      intro a b
      rw [pureCompare_succ]
      by_cases h1 : jsStrictEq a b = true
      · have h1b : jsStrictEq b a = true := by rw [← jsStrictEq_symm]; exact h1
        simp only [pureStep, h1, h1b, if_true]
        exact identityResult_symm opts a b h1
      · have h1f : jsStrictEq a b = false := Bool.eq_false_iff.mpr h1
        have h1bf : jsStrictEq b a = false := by
          rw [← jsStrictEq_symm]; exact h1f
        by_cases h2 : (jsIsNaN a && jsIsNaN b) = true
        · have h2b : (jsIsNaN b && jsIsNaN a) = true := by
            rw [Bool.and_comm]; exact h2
          simp only [pureStep, h1f, h1bf, h2, h2b, Bool.false_eq_true,
            if_false, if_true]
        · have h2f : (jsIsNaN a && jsIsNaN b) = false := Bool.eq_false_iff.mpr h2
          have h2bf : (jsIsNaN b && jsIsNaN a) = false := by
            rw [Bool.and_comm]; exact h2f
          cases a with
          | prim p =>
              cases b with
              | prim q => simp only [pureStep, h1f, h1bf, h2f, h2bf,
                  Bool.false_eq_true, if_false]
              | ref rb => simp only [pureStep, h1f, h1bf, h2f, h2bf,
                  Bool.false_eq_true, if_false]
          | ref ra =>
              cases b with
              | prim q => simp only [pureStep, h1f, h1bf, h2f, h2bf,
                  Bool.false_eq_true, if_false]
              | ref rb =>
                  cases hna : heapGet H ra with
                  | none =>
                      cases hnb : heapGet H rb with
                      | none => simp only [pureStep, h1f, h1bf, h2f, h2bf,
                          hna, hnb, Bool.false_eq_true, if_false]
                      | some nb => simp only [pureStep, h1f, h1bf, h2f, h2bf,
                          hna, hnb, Bool.false_eq_true, if_false]
                  | some na =>
                      cases hnb : heapGet H rb with
                      | none => simp only [pureStep, h1f, h1bf, h2f, h2bf,
                          hna, hnb, Bool.false_eq_true, if_false]
                      | some nb =>
                          have hbne : (jsCtor na != jsCtor nb) =
                              (jsCtor nb != jsCtor na) := by
                            simp only [bne]
                            rw [beq_symm_eq]
                          by_cases hct : ((jsCtor na != jsCtor nb) &&
                              opts.checkPrototypes) = true
                          · have hct2 : ((jsCtor nb != jsCtor na) &&
                                opts.checkPrototypes) = true := by
                              rw [← hbne]; exact hct
                            simp only [pureStep, h1f, h1bf, h2f, h2bf, hna, hnb,
                              hct, hct2, if_true, Bool.false_eq_true, if_false]
                          · have hctf : ((jsCtor na != jsCtor nb) &&
                                opts.checkPrototypes) = false :=
                              Bool.eq_false_iff.mpr hct
                            have hct2f : ((jsCtor nb != jsCtor na) &&
                                opts.checkPrototypes) = false := by
                              rw [← hbne]; exact hctf
                            have hceq : jsCtor na = jsCtor nb := by
                              rw [hcp] at hctf
                              simpa using hctf
                            simp only [pureStep, h1f, h1bf, h2f, h2bf, hna, hnb,
                              hctf, hct2f, Bool.false_eq_true, if_false]
                            cases na with
                            | oDate t =>
                                cases nb <;>
                                  first
                                  | (simp [jsCtor] at hceq
                                     done)
                                  | (rename_i t2
                                     simp only []
                                     rw [decide_eq_decide]
                                     exact eq_comm)
                            | oRegex src fl =>
                                cases nb <;>
                                  first
                                  | (simp [jsCtor] at hceq
                                     done)
                                  | (rename_i src2 fl2
                                     simp only [readSource, readFlags,
                                       jsStrictEq_str]
                                     rw [beq_symm_eq src src2,
                                       beq_symm_eq fl fl2])
                            | oErr n m =>
                                cases nb <;>
                                  first
                                  | (simp [jsCtor] at hceq
                                     done)
                                  | (rename_i n2 m2
                                     simp only [readName, readMessage,
                                       jsStrictEq_str]
                                     rw [beq_symm_eq n n2, beq_symm_eq m m2])
                            | oSet es =>
                                cases nb <;>
                                  first
                                  | (simp [jsCtor] at hceq
                                     done)
                                  | rfl
                            | oMap es =>
                                cases nb <;>
                                  first
                                  | (simp [jsCtor] at hceq
                                     done)
                                  | rfl
                            | arr as =>
                                cases nb <;>
                                  first
                                  | (simp [jsCtor] at hceq
                                     done)
                                  | skip
                                rename_i bs
                                simp only [readLength, jsStrictEq_natInt]
                                by_cases hlen : as.length = bs.length
                                · rw [decide_eq_true hlen,
                                    decide_eq_true hlen.symm]
                                  simp only [Bool.true_and]
                                  unfold arrPairs
                                  rw [all_map_eq, all_map_eq, ← hlen]
                                  apply all_congr_list
                                  intro i hi
                                  simp only [jsIndexRead]
                                  exact ih _ _
                                · rw [decide_eq_false hlen,
                                    decide_eq_false (fun h => hlen h.symm)]
                                  simp
                            | obj fA =>
                                have hndA : (fA.map Prod.fst).Nodup :=
                                  wfKeys_nodup H hwf ra fA hna
                                cases nb <;>
                                  first
                                  | (simp [jsCtor] at hceq
                                     done)
                                  | skip
                                rename_i fB
                                have hndB : (fB.map Prod.fst).Nodup :=
                                  wfKeys_nodup H hwf rb fB hnb
                                simp only [jsOwnKeys, jsHasOwn, jsFieldRead]
                                by_cases hlen : (fA.map Prod.fst).length =
                                    (fB.map Prod.fst).length
                                · rw [decide_eq_true hlen,
                                    decide_eq_true hlen.symm]
                                  simp only [Bool.true_and]
                                  by_cases hsub : ∀ k ∈ fA.map Prod.fst,
                                      k ∈ fB.map Prod.fst
                                  · have hperm := keys_perm_of_subset _ _ hndA hlen hsub
                                    have hallA : (fA.map Prod.fst).all
                                        (fun k => (fB.map Prod.fst).contains k) = true := by
                                      rw [List.all_eq_true]
                                      intro k hk
                                      exact List.elem_iff.mpr (hsub k hk)
                                    have hallB : (fB.map Prod.fst).all
                                        (fun k => (fA.map Prod.fst).contains k) = true := by
                                      rw [List.all_eq_true]
                                      intro k hk
                                      exact List.elem_iff.mpr (hperm.symm.subset hk)
                                    rw [hallA, hallB]
                                    simp only [Bool.true_and]
                                    have hstep : (fB.map Prod.fst).reverse.all
                                        (fun k => pureCompare H opts f
                                          (jsField fB k) (jsField fA k)) =
                                        (fB.map Prod.fst).reverse.all
                                        (fun k => pureCompare H opts f
                                          (jsField fA k) (jsField fB k)) :=
                                      all_congr_list _ _ _ (fun k _ => (ih _ _).symm)
                                    rw [hstep]
                                    exact perm_all _ _
                                      (((fA.map Prod.fst).reverse_perm).trans
                                        (hperm.trans
                                          ((fB.map Prod.fst).reverse_perm).symm)) _
                                  · have hsub2 : ¬ ∀ k ∈ fB.map Prod.fst,
                                        k ∈ fA.map Prod.fst := by
                                      intro hs2
                                      exact hsub (fun k hk =>
                                        (keys_perm_of_subset _ _ hndB hlen.symm
                                          hs2).symm.subset hk)
                                    have hallA : (fA.map Prod.fst).all
                                        (fun k => (fB.map Prod.fst).contains k) = false := by
                                      rw [Bool.eq_false_iff]
                                      intro hcon
                                      exact hsub (fun k hk =>
                                        List.elem_iff.mp (List.all_eq_true.mp hcon k hk))
                                    have hallB : (fB.map Prod.fst).all
                                        (fun k => (fA.map Prod.fst).contains k) = false := by
                                      rw [Bool.eq_false_iff]
                                      intro hcon
                                      exact hsub2 (fun k hk =>
                                        List.elem_iff.mp (List.all_eq_true.mp hcon k hk))
                                    rw [hallA, hallB]
                                    simp
                                · rw [decide_eq_false hlen,
                                    decide_eq_false (fun h => hlen h.symm)]
                                  simp

end IsDeepEqual

namespace IsDeepEqual

theorem objLoop_eq_arrLoop (cmp : ChildCmp) (fA : List (String × Value))
    (nb : HObject) :
    ∀ (ks : List String) (s : Ledger),
      objLoop cmp fA nb ks s =
        arrLoop cmp (ks.map (fun k => (jsField fA k, jsFieldRead nb k))) s := by
  intro ks
  induction ks with
  | nil => intro s; rfl
  | cons k rest ih =>
      intro s
      unfold objLoop arrLoop
      simp only [List.map_cons]
      cases hc : cmp (jsField fA k) (jsFieldRead nb k) s with
      | error e => rfl
      | ok p =>
          obtain ⟨r, s1⟩ := p
          cases r with
          | true => simp [ih]
          | false => simp

theorem field_values : ∀ (fs : List (String × Value)),
    (fs.map Prod.fst).Nodup →
    (fs.map Prod.fst).map (fun k => jsField fs k) = fs.map Prod.snd := by
  intro fs
  induction fs with
  | nil => intro _; rfl
  | cons p rest ih =>
      intro hnd
      obtain ⟨k, v⟩ := p
      rw [List.map_cons] at hnd
      obtain ⟨hk, hnd2⟩ := List.nodup_cons.mp hnd
      simp only [List.map_cons]
      congr 1
      · simp [jsField]
      · rw [← ih hnd2]
        apply List.map_congr_left
        intro k2 hk2
        have hne : k ≠ k2 := fun he => hk (he ▸ hk2)
        simp [jsField, hne]

theorem getD_range_map (as : List Value) :
    (List.range as.length).map (fun i => as.getD i (.prim .undefV)) = as := by
  induction as with
  | nil => rfl
  | cons x xs ih =>
      rw [show (x :: xs).length = xs.length + 1 from rfl,
        List.range_succ_eq_map]
      simp only [List.map_cons, List.map_map]
      congr 1

theorem arrPairs_map_fst (as : List Value) (nb : HObject) :
    (arrPairs as nb).map Prod.fst = as.reverse := by
  unfold arrPairs
  rw [List.map_map]
  rw [show (Prod.fst ∘ fun i => (as.getD i (.prim .undefV), jsIndexRead nb i)) =
      (fun i => as.getD i (.prim .undefV)) from rfl]
  rw [List.map_reverse, getD_range_map]

theorem arrLoop_eq_pure (H : Heap) (cmp : ChildCmp) (pf : Value → Value → Bool)
    (hc : ∀ (x : Value) (Ax : List Nat) (y : Value) (s : Ledger),
      TreeAt H x Ax → (∀ t ∈ Ax, seenGet s t = none) →
      ∃ s2, cmp x y s = .ok (pf x y, s2) ∧
        ∀ t, t ∉ Ax → seenGet s2 t = seenGet s t) :
    ∀ (ps : List (Value × Value)) (PA : List Nat) (s : Ledger),
      TreeVals H (ps.map Prod.fst) PA → (∀ t ∈ PA, seenGet s t = none) →
      ∃ s2, arrLoop cmp ps s = .ok (ps.all (fun p => pf p.1 p.2), s2) ∧
        ∀ t, t ∉ PA → seenGet s2 t = seenGet s t := by
  intro ps
  induction ps with
  | nil => intro PA s _ _; exact ⟨s, rfl, fun t _ => rfl⟩
  | cons p rest ih =>
      intro PA s htv hs
      obtain ⟨x, y⟩ := p
      cases htv with
      | cons _ _ A B _ hx hrest hdisj hiff =>
          have hsA : ∀ t ∈ A, seenGet s t = none := fun t ht =>
            hs t ((hiff t).mpr (Or.inl ht))
          obtain ⟨s1, hc1, hp1⟩ := hc x A y s hx hsA
          cases hpf : pf x y with
          | false =>
              refine ⟨s1, ?_, ?_⟩
              · rw [hpf] at hc1
                simp [arrLoop, hc1, hpf]
              · intro t ht
                exact hp1 t (fun hA => ht ((hiff t).mpr (Or.inl hA)))
          | true =>
              have hsB : ∀ t ∈ B, seenGet s1 t = none := by
                intro t ht
                have htA : t ∉ A := fun hA => hdisj t hA ht
                rw [hp1 t htA]
                exact hs t ((hiff t).mpr (Or.inr ht))
              obtain ⟨s2, hc2, hp2⟩ := ih B s1 hrest hsB
              refine ⟨s2, ?_, ?_⟩
              · rw [hpf] at hc1
                simp [arrLoop, hc1, hpf, hc2]
              · intro t ht
                have htA : t ∉ A := fun h => ht ((hiff t).mpr (Or.inl h))
                have htB : t ∉ B := fun h => ht ((hiff t).mpr (Or.inr h))
                rw [hp2 t htB, hp1 t htA]

theorem stepF_dispatch (H : Heap) (opts : RequiredDeepEqualOptions)
    (cmp : ChildCmp) (ra rb : Nat) (na nb : HObject) (s : Ledger)
    (hne : ra ≠ rb) (hna : heapGet H ra = some na)
    (hnb : heapGet H rb = some nb)
    (hctor : ((jsCtor na != jsCtor nb) && opts.checkPrototypes) = false)
    (hseen : seenGet s ra = none) :
    stepF H opts cmp (.ref ra) (.ref rb) s =
      dispatch cmp na nb ((ra, rb) :: s) := by
  unfold stepF
  simp [jsStrictEq, jsIsNaN, hne, hna, hnb, hctor, hseen]

end IsDeepEqual

namespace IsDeepEqual

theorem seenGet_cons (ra rb t : Nat) (s : Ledger) :
    seenGet ((ra, rb) :: s) t = if ra = t then some rb else seenGet s t := rfl

theorem ctor_eq_oDate (nb : HObject) (t : Int)
    (h : jsCtor (.oDate t) = jsCtor nb) : ∃ t2, nb = .oDate t2 := by
  cases nb <;>
    first
    | (simp [jsCtor] at h
       done)
    | exact ⟨_, rfl⟩

/-- On a tree-shaped `a`, against any `b` whatsoever, the threaded comparator
agrees with the ledger-free `pureCompare`: the ledger never hits (the tree has
no sharing), and the final ledger differs from the initial one only at
addresses of the tree.  `checkPrototypes` must be on, pruning the throwing
Date branch, and `WFKeys` keeps every object clear of the throwing
boxed-primitive branch (no own `valueOf`). -/
theorem cmpF_eq_pure (H : Heap) (opts : RequiredDeepEqualOptions)
    (hck : opts.checkPrototypes = true) (hwf : WFKeys H) :
    ∀ (fuel : Nat) (a : Value) (A : List Nat) (b : Value) (s : Ledger),
      TreeAt H a A → (∀ t ∈ A, seenGet s t = none) →
      ∃ s2, deepEqualCoreF H opts fuel a b s =
          .ok (pureCompare H opts fuel a b, s2) ∧
        ∀ t, t ∉ A → seenGet s2 t = seenGet s t := by
  intro fuel
  induction fuel with
  | zero => intro a A b s _ _; exact ⟨s, rfl, fun t _ => rfl⟩
  | succ fuel ih =>
      intro a A b s hta hs
      simp only [deepEqualCoreF_succ, pureCompare_succ]
      by_cases hid : jsStrictEq a b = true
      · exact ⟨s, by simp only [stepF, pureStep, hid, if_true], fun t _ => rfl⟩
      · have hidf : jsStrictEq a b = false := Bool.eq_false_iff.mpr hid
        by_cases hnan : (jsIsNaN a && jsIsNaN b) = true
        · exact ⟨s, by
            simp only [stepF, pureStep, hidf, Bool.false_eq_true, if_false,
              hnan, if_true], fun t _ => rfl⟩
        · have hnanf : (jsIsNaN a && jsIsNaN b) = false :=
            Bool.eq_false_iff.mpr hnan
          cases hta with
          | prim p PC hemp =>
              refine ⟨s, ?_, fun t _ => rfl⟩
              cases b <;>
                simp only [stepF, pureStep, hidf, hnanf, Bool.false_eq_true,
                  if_false]
          | node ra na Ach CC hna htn hnotin hiff =>
              cases b with
              | prim q =>
                  refine ⟨s, ?_, fun t _ => rfl⟩
                  simp only [stepF, pureStep, hidf, hnanf, Bool.false_eq_true,
                    if_false]
              | ref rb =>
                  have hne : ra ≠ rb := by
                    have h2 : (ra == rb) = false := by
                      simpa [jsStrictEq] using hidf
                    exact fun he => by simp [he] at h2
                  cases hnb : heapGet H rb with
                  | none =>
                      refine ⟨s, ?_, fun t _ => rfl⟩
                      simp only [stepF, pureStep, hidf, hnanf,
                        Bool.false_eq_true, if_false, hna, hnb]
                  | some nb =>
                      by_cases hct :
                          ((jsCtor na != jsCtor nb) &&
                            opts.checkPrototypes) = true
                      · refine ⟨s, ?_, fun t _ => rfl⟩
                        simp only [stepF, pureStep, hidf, hnanf,
                          Bool.false_eq_true, if_false, hna, hnb, hct, if_true]
                      · have hctf : ((jsCtor na != jsCtor nb) &&
                            opts.checkPrototypes) = false :=
                          Bool.eq_false_iff.mpr hct
                        have hctoreq : jsCtor na = jsCtor nb := by
                          have h2 := hctf
                          rw [hck, Bool.and_true] at h2
                          simpa using h2
                        have hseen : seenGet s ra = none :=
                          hs ra ((hiff ra).mpr (Or.inl rfl))
                        have hcons : ∀ t : Nat, ra ≠ t →
                            seenGet ((ra, rb) :: s) t = seenGet s t := by
                          intro t hne2
                          rw [seenGet_cons, if_neg hne2]
                        have hsnone : ∀ t ∈ Ach,
                            seenGet ((ra, rb) :: s) t = none := by
                          intro t ht
                          rw [hcons t (fun he => hnotin (he ▸ ht))]
                          exact hs t ((hiff t).mpr (Or.inr ht))
                        have hccf : ∀ t, t ∉ A →
                            seenGet ((ra, rb) :: s) t = seenGet s t := by
                          intro t ht
                          exact hcons t
                            (fun he => ht ((hiff t).mpr (Or.inl he.symm)))
                        cases htn with
                        | arr es Ach htv =>
                            by_cases hlen : jsStrictEq
                                (.prim (.num (.int es.length)))
                                (readLength nb) = true
                            · have htv2 : TreeVals H
                                  ((arrPairs es nb).map Prod.fst) Ach := by
                                rw [arrPairs_map_fst]
                                exact treeVals_reverse H es Ach htv
                              obtain ⟨s2, harr, hconf⟩ := arrLoop_eq_pure H
                                (deepEqualCoreF H opts fuel)
                                (pureCompare H opts fuel) ih
                                (arrPairs es nb) Ach ((ra, rb) :: s) htv2
                                hsnone
                              refine ⟨s2, ?_, ?_⟩
                              · rw [stepF_dispatch H opts
                                  (deepEqualCoreF H opts fuel) ra rb
                                  (.arr es) nb s hne hna hnb hctf hseen]
                                simp only [dispatch, pureStep, hidf, hnanf,
                                  Bool.false_eq_true, if_false, hna, hnb,
                                  hctf, hlen, if_true, Bool.true_and]
                                exact harr
                              · intro t ht
                                rw [hconf t
                                  (fun h2 => ht ((hiff t).mpr (Or.inr h2)))]
                                exact hcons t
                                  (fun he => ht ((hiff t).mpr (Or.inl he.symm)))
                            · have hlenf := Bool.eq_false_iff.mpr hlen
                              refine ⟨(ra, rb) :: s, ?_, hccf⟩
                              rw [stepF_dispatch H opts
                                (deepEqualCoreF H opts fuel) ra rb
                                (.arr es) nb s hne hna hnb hctf hseen]
                              simp only [dispatch, pureStep, hidf, hnanf,
                                Bool.false_eq_true, if_false, hna, hnb, hctf,
                                hlenf, Bool.false_and]
                        | obj fs Ach htv =>
                            have hnd : (fs.map Prod.fst).Nodup :=
                              wfKeys_nodup H hwf ra fs hna
                            have hnv : "valueOf" ∉ fs.map Prod.fst :=
                              wfKeys_noValueOf H hwf ra fs hna
                            by_cases hlen : (fs.map Prod.fst).length =
                                (jsOwnKeys nb).length
                            · by_cases hown : (fs.map Prod.fst).all
                                  (fun k => jsHasOwn nb k) = true
                              · have hkeys : (((fs.map Prod.fst).reverse.map
                                    (fun k =>
                                      (jsField fs k, jsFieldRead nb k))).map
                                    Prod.fst) = (fs.map Prod.snd).reverse := by
                                  rw [List.map_map]
                                  rw [show (Prod.fst ∘ fun k =>
                                      (jsField fs k, jsFieldRead nb k)) =
                                      (fun k => jsField fs k) from rfl]
                                  rw [List.map_reverse]
                                  rw [field_values fs hnd]
                                have htv2 : TreeVals H
                                    (((fs.map Prod.fst).reverse.map
                                      (fun k => (jsField fs k,
                                        jsFieldRead nb k))).map Prod.fst)
                                    Ach := by
                                  rw [hkeys]
                                  exact treeVals_reverse H (fs.map Prod.snd)
                                    Ach htv
                                obtain ⟨s2, harr, hconf⟩ := arrLoop_eq_pure H
                                  (deepEqualCoreF H opts fuel)
                                  (pureCompare H opts fuel) ih
                                  ((fs.map Prod.fst).reverse.map
                                    (fun k => (jsField fs k, jsFieldRead nb k)))
                                  Ach ((ra, rb) :: s) htv2 hsnone
                                refine ⟨s2, ?_, ?_⟩
                                · rw [stepF_dispatch H opts
                                    (deepEqualCoreF H opts fuel) ra rb
                                    (.obj fs) nb s hne hna hnb hctf hseen]
                                  have hpure : pureStep H opts
                                      (pureCompare H opts fuel)
                                      (.ref ra) (.ref rb) =
                                      (fs.map Prod.fst).reverse.all
                                        (fun k => pureCompare H opts fuel
                                          (jsField fs k)
                                          (jsFieldRead nb k)) := by
                                    simp only [pureStep, hidf, hnanf,
                                      Bool.false_eq_true, if_false, hna, hnb,
                                      hctf, decide_eq_true hlen, hown,
                                      Bool.true_and]
                                  rw [hpure]
                                  simp only [dispatch, compareObject]
                                  rw [if_neg hnv]
                                  rw [if_neg (fun h => h hlen)]
                                  rw [hown, Bool.not_true]
                                  rw [if_neg (by simp :
                                    ¬ ((false : Bool) = true))]
                                  rw [objLoop_eq_arrLoop, harr, all_map_eq]
                                · intro t ht
                                  rw [hconf t
                                    (fun h2 => ht ((hiff t).mpr (Or.inr h2)))]
                                  exact hcons t (fun he =>
                                    ht ((hiff t).mpr (Or.inl he.symm)))
                              · have hownf := Bool.eq_false_iff.mpr hown
                                refine ⟨(ra, rb) :: s, ?_, hccf⟩
                                rw [stepF_dispatch H opts
                                  (deepEqualCoreF H opts fuel) ra rb
                                  (.obj fs) nb s hne hna hnb hctf hseen]
                                have hpure : pureStep H opts
                                    (pureCompare H opts fuel)
                                    (.ref ra) (.ref rb) = false := by
                                  simp only [pureStep, hidf, hnanf,
                                    Bool.false_eq_true, if_false, hna, hnb,
                                    hctf, hownf, Bool.and_false,
                                    Bool.false_and]
                                rw [hpure]
                                simp only [dispatch, compareObject]
                                rw [if_neg hnv]
                                rw [if_neg (fun h => h hlen)]
                                rw [hownf, Bool.not_false, if_pos rfl]
                            · refine ⟨(ra, rb) :: s, ?_, hccf⟩
                              rw [stepF_dispatch H opts
                                (deepEqualCoreF H opts fuel) ra rb
                                (.obj fs) nb s hne hna hnb hctf hseen]
                              have hpure : pureStep H opts
                                  (pureCompare H opts fuel)
                                  (.ref ra) (.ref rb) = false := by
                                simp only [pureStep, hidf, hnanf,
                                  Bool.false_eq_true, if_false, hna, hnb,
                                  hctf, decide_eq_false hlen,
                                  Bool.false_and]
                              rw [hpure]
                              simp only [dispatch, compareObject]
                              rw [if_neg hnv]
                              rw [if_pos hlen]
                        | date t TC hTC =>
                            obtain ⟨t2, rfl⟩ := ctor_eq_oDate nb t hctoreq
                            refine ⟨(ra, rb) :: s, ?_, hccf⟩
                            rw [stepF_dispatch H opts
                              (deepEqualCoreF H opts fuel) ra rb
                              (.oDate t) (.oDate t2) s hne hna hnb hctf hseen]
                            simp only [dispatch, pureStep, hidf, hnanf,
                              Bool.false_eq_true, if_false, hna, hnb, hctf]
                        | regex src fl TC hTC =>
                            refine ⟨(ra, rb) :: s, ?_, hccf⟩
                            rw [stepF_dispatch H opts
                              (deepEqualCoreF H opts fuel) ra rb
                              (.oRegex src fl) nb s hne hna hnb hctf hseen]
                            simp only [dispatch, pureStep, hidf, hnanf,
                              Bool.false_eq_true, if_false, hna, hnb, hctf]
                        | err n m TC hTC =>
                            refine ⟨(ra, rb) :: s, ?_, hccf⟩
                            rw [stepF_dispatch H opts
                              (deepEqualCoreF H opts fuel) ra rb
                              (.oErr n m) nb s hne hna hnb hctf hseen]
                            simp only [dispatch, pureStep, hidf, hnanf,
                              Bool.false_eq_true, if_false, hna, hnb, hctf]

end IsDeepEqual

namespace IsDeepEqual

/-- C2 (amended): symmetry does hold on tree-shaped inputs — acyclic AND
free of shared references, containing no Set or Map, every object node with
duplicate-free keys and no own `valueOf` key (an own `valueOf` sends the
object to the boxed-primitive branch, which throws from one side only) —
when `checkPrototypes` is enabled: `compare(a, b)` and `compare(b, a)` from
fresh ledgers at depth `0` give the same outcome.  The original claim
(acyclicity plus absence of ambiguous Set/Map duplicates suffices) is
refuted by `c2_counterexample`: a DAG with a shared reference and no Set or
Map at all already breaks symmetry, because the threaded WeakMap ledger
records a pairing from one side only. -/
theorem c2_tree_symmetry (H : Heap) (opts : RequiredDeepEqualOptions)
    (hck : opts.checkPrototypes = true) (hwf : WFKeys H)
    (a b : Value) (A B : List Nat)
    (ha : TreeAt H a A) (hb : TreeAt H b B) :
    resultOf (deepEqualCore H a b opts [] 0) =
      resultOf (deepEqualCore H b a opts [] 0) := by
  unfold deepEqualCore
  obtain ⟨s2, h1, _⟩ := cmpF_eq_pure H opts hck hwf (opts.maxDepth + 1 - 0)
    a A b [] ha (fun t _ => rfl)
  obtain ⟨s3, h2, _⟩ := cmpF_eq_pure H opts hck hwf (opts.maxDepth + 1 - 0)
    b B a [] hb (fun t _ => rfl)
  rw [h1, h2]
  simp only [resultOf, Except.map]
  rw [pureCompare_symm H opts hck hwf]

/-- Concrete tree-shaped pair for the C2 witness: two structurally equal but
disjoint trees, each an array holding one object. -/
def c2Heap : Heap :=
  [(0, .obj [("x", .prim (.num (.int 1)))]), (1, .arr [.ref 0]),
   (2, .obj [("x", .prim (.num (.int 1)))]), (3, .arr [.ref 2])]

/-- All-default options except `checkPrototypes := true`. -/
def checkedOpts : RequiredDeepEqualOptions := ⟨true, true, false, 1000⟩

theorem c2_tree_symmetry_witness :
    resultOf (deepEqualCore c2Heap (.ref 1) (.ref 3) checkedOpts [] 0) =
      resultOf (deepEqualCore c2Heap (.ref 3) (.ref 1) checkedOpts [] 0) := by
  have hprim : TreeAt c2Heap (.prim (.num (.int 1))) [] :=
    .prim _ [] (by simp)
  have hv0 : TreeVals c2Heap [.prim (.num (.int 1))] [] :=
    .cons _ [] [] [] [] hprim (.nil [] (by simp)) (by simp) (by simp)
  have h0 : TreeAt c2Heap (.ref 0) [0] :=
    .node 0 (.obj [("x", .prim (.num (.int 1)))]) [] [0] rfl
      (.obj _ [] hv0) (by simp) (by simp)
  have hv1 : TreeVals c2Heap [.ref 0] [0] :=
    .cons _ [] [0] [] [0] h0 (.nil [] (by simp)) (by simp) (by simp)
  have h1 : TreeAt c2Heap (.ref 1) [1, 0] :=
    .node 1 (.arr [.ref 0]) [0] [1, 0] rfl (.arr _ [0] hv1)
      (by simp) (by simp)
  have hv2 : TreeVals c2Heap [.prim (.num (.int 1))] [] :=
    .cons _ [] [] [] [] hprim (.nil [] (by simp)) (by simp) (by simp)
  have h2 : TreeAt c2Heap (.ref 2) [2] :=
    .node 2 (.obj [("x", .prim (.num (.int 1)))]) [] [2] rfl
      (.obj _ [] hv2) (by simp) (by simp)
  have hv3 : TreeVals c2Heap [.ref 2] [2] :=
    .cons _ [] [2] [] [2] h2 (.nil [] (by simp)) (by simp) (by simp)
  have h3 : TreeAt c2Heap (.ref 3) [3, 2] :=
    .node 3 (.arr [.ref 2]) [2] [3, 2] rfl (.arr _ [2] hv3)
      (by simp) (by simp)
  have hwf : WFKeys c2Heap := by
    intro p hp
    simp only [c2Heap, List.mem_cons, List.not_mem_nil, or_false] at hp
    rcases hp with rfl | rfl | rfl | rfl <;> rfl
  exact c2_tree_symmetry c2Heap checkedOpts rfl hwf
    (.ref 1) (.ref 3) [1, 0] [3, 2] h1 h3

end IsDeepEqual
